import Mathlib

/-!
Shallow embedding of the Pixelknight authoritative game server
(servercode.js) and of the client prediction / reconciliation code
(the unnamed client source file), together with proofs about the
collision solver, the authoritative tick, the enemy state machine,
the collectible handlers and the client input queue.

World coordinates and velocities are modelled as rationals; the
JavaScript code uses IEEE doubles, but every concrete value appearing
in the theorems below is exactly representable and every operation
performed on it (addition, multiplication by small constants, floor)
is exact in both models.  Array indices and grid coordinates are
integers.  The map is modelled as a total function from (row, column)
to solidity; in the source an out-of-bounds lookup yields a falsy
value, which the bounds guards make unobservable.
-/

namespace Pixelknight

/-- Game constant from servercode.js: the map is MAP_WIDTH cells wide. -/
def MAP_WIDTH : ℤ := 1000

/-- Game constant from servercode.js: the map is MAP_HEIGHT cells tall. -/
def MAP_HEIGHT : ℤ := 240

/-- Game constant from servercode.js: the game loop interval in milliseconds,
passed to setInterval and used as TICK_RATE / 1000 for physics dt. -/
def TICK_RATE : ℚ := 10

/-- Physics constant gameState.physics.gravity. -/
def gravity : ℚ := 800

/-- Physics constant gameState.physics.jumpSpeed. -/
def jumpSpeed : ℚ := -350

/-- Physics constant gameState.physics.speed (horizontal run speed). -/
def speed : ℚ := 150

/-- Physics constant gameState.physics.minJumpVelocity. -/
def minJumpVelocity : ℚ := -200

/-- Key state sent by the client in an input message. -/
structure Keys where
  left : Bool
  right : Bool
  jump : Bool
deriving DecidableEq, Repr

/-- Server-side player record (the fields of gameState.players[id] that
the simulation reads or writes).  Width and height are integers, as
every character in the source has integral dimensions (16 by 24). -/
structure Character where
  pos_x : ℚ
  pos_y : ℚ
  vel_x : ℚ
  vel_y : ℚ
  width : ℤ
  height : ℤ
  onGround : Bool
  facingRight : Bool
  keys : Option Keys
  lastProcessedInput : ℕ
deriving DecidableEq, Repr

/-- The tile map: solidity indexed by (row, column), matching the
source expression map[y][x].solid. -/
abbrev GameMap := ℤ → ℤ → Bool

/-- First-hit scan: try f on start, start+1, ... for count indices and
return the first result that is some.  This models the early-return
for-loops of the collision functions. -/
def firstSomeAux {α : Type} (f : ℕ → Option α) : ℕ → ℕ → Option α
  | _, 0 => none
  | start, Nat.succ c =>
    match f start with
    | some v => some v
    | none => firstSomeAux f (start + 1) c

/-- First some of f on 0, 1, ..., n-1. -/
def firstSome {α : Type} (f : ℕ → Option α) (n : ℕ) : Option α :=
  firstSomeAux f 0 n

/-- Kernel-computable floor on the rationals (Math.floor). -/
def qfloor (q : ℚ) : ℤ := q.floor

/-- Kernel-computable ceiling on the rationals (Math.ceil). -/
def qceil (q : ℚ) : ℤ := q.ceil

/-- Kernel-computable absolute value on the rationals (Math.abs). -/
def qabs (q : ℚ) : ℚ := if q < 0 then -q else q

/-- Kernel-computable max on the integers (Math.max). -/
def zmax (a b : ℤ) : ℤ := if a ≤ b then b else a

/-- Step count of the ray march: steps = max(5, ceil(distance / 4) + 3). -/
def stepsFor (d : ℚ) : ℤ := zmax 5 (qceil (d / 4) + 3)

/-- Number of perpendicular sample points: max(5, hi - lo + 1). -/
def checkPointsFor (lo hi : ℤ) : ℤ := zmax 5 (hi - lo + 1)

/-- Inner loop of the horizontal ray cast and endpoint check: scan one
column col at sample rows floor(top + i * (bottom - top) / (cp - 1))
for i below cp, returning the column on the first solid in-bounds hit. -/
def hScanColumn (m : GameMap) (col top bottom cp : ℤ) : Option ℤ :=
  firstSome (fun i =>
    let checkY : ℤ := qfloor ((top : ℚ) + ((i : ℚ) * ((bottom : ℚ) - (top : ℚ))) / ((cp : ℚ) - 1))
    if 0 ≤ col ∧ col < MAP_WIDTH ∧ 0 ≤ checkY ∧ checkY < MAP_HEIGHT ∧ m checkY col = true
    then some col else none) cp.toNat

/-- Inner loop of the vertical ray cast and endpoint check: scan one
row at sample columns floor(left + i * (right - left) / (cp - 1)). -/
def vScanRow (m : GameMap) (row left right cp : ℤ) : Option ℤ :=
  firstSome (fun i =>
    let checkX : ℤ := qfloor ((left : ℚ) + ((i : ℚ) * ((right : ℚ) - (left : ℚ))) / ((cp : ℚ) - 1))
    if 0 ≤ checkX ∧ checkX < MAP_WIDTH ∧ 0 ≤ row ∧ row < MAP_HEIGHT ∧ m row checkX = true
    then some row else none) cp.toNat

/-- Ray cast of checkHorizontalCollision for rightward movement: march
from pos_x toward newX, testing the leading right edge column
floor(interp) + width; on a hit the source snaps pos_x to the hit
column minus the width. -/
def raycastRight (m : GameMap) (ch : Character) (newX y : ℚ) : Option ℚ :=
  let top : ℤ := qfloor y
  let bottom : ℤ := qfloor (y + (ch.height : ℚ) - 1)
  let cp := checkPointsFor top bottom
  let steps := stepsFor (qabs (newX - ch.pos_x))
  (firstSome (fun step =>
    let t : ℚ := (step : ℚ) / ((steps : ℚ) - 1)
    let checkX : ℤ := qfloor (ch.pos_x + t * (newX - ch.pos_x))
    hScanColumn m (checkX + ch.width) top bottom cp) steps.toNat).map
    (fun col => (col : ℚ) - (ch.width : ℚ))

/-- Endpoint check of checkHorizontalCollision for rightward movement
at the destination: column floor(newX) + width, first at the vertical
center then at the sample rows, skipping the center. -/
def endpointRight (m : GameMap) (ch : Character) (newX y : ℚ) : Option ℚ :=
  let top : ℤ := qfloor y
  let bottom : ℤ := qfloor (y + (ch.height : ℚ) - 1)
  let cp := checkPointsFor top bottom
  let right : ℤ := qfloor newX + ch.width
  let centerY : ℤ := qfloor ((top : ℚ) + ((bottom : ℚ) - (top : ℚ)) / 2)
  if 0 ≤ right ∧ right < MAP_WIDTH ∧ 0 ≤ centerY ∧ centerY < MAP_HEIGHT ∧ m centerY right = true
  then some ((right : ℚ) - (ch.width : ℚ))
  else
    (firstSome (fun i =>
      let checkY : ℤ := qfloor ((top : ℚ) + ((i : ℚ) * ((bottom : ℚ) - (top : ℚ))) / ((cp : ℚ) - 1))
      if checkY = centerY then none
      else if 0 ≤ right ∧ right < MAP_WIDTH ∧ 0 ≤ checkY ∧ checkY < MAP_HEIGHT ∧ m checkY right = true
      then some ((right : ℚ) - (ch.width : ℚ)) else none) cp.toNat)

/-- Ray cast of checkHorizontalCollision for leftward movement: leading
left edge column floor(interp); on a hit the source snaps pos_x to the
hit column plus one. -/
def raycastLeft (m : GameMap) (ch : Character) (newX y : ℚ) : Option ℚ :=
  let top : ℤ := qfloor y
  let bottom : ℤ := qfloor (y + (ch.height : ℚ) - 1)
  let cp := checkPointsFor top bottom
  let steps := stepsFor (qabs (newX - ch.pos_x))
  (firstSome (fun step =>
    let t : ℚ := (step : ℚ) / ((steps : ℚ) - 1)
    let checkX : ℤ := qfloor (ch.pos_x + t * (newX - ch.pos_x))
    hScanColumn m checkX top bottom cp) steps.toNat).map
    (fun col => (col : ℚ) + 1)

/-- Endpoint check of checkHorizontalCollision for leftward movement. -/
def endpointLeft (m : GameMap) (ch : Character) (newX y : ℚ) : Option ℚ :=
  let top : ℤ := qfloor y
  let bottom : ℤ := qfloor (y + (ch.height : ℚ) - 1)
  let cp := checkPointsFor top bottom
  let leftCol : ℤ := qfloor newX
  let centerY : ℤ := qfloor ((top : ℚ) + ((bottom : ℚ) - (top : ℚ)) / 2)
  if 0 ≤ leftCol ∧ leftCol < MAP_WIDTH ∧ 0 ≤ centerY ∧ centerY < MAP_HEIGHT ∧ m centerY leftCol = true
  then some ((leftCol : ℚ) + 1)
  else
    (firstSome (fun i =>
      let checkY : ℤ := qfloor ((top : ℚ) + ((i : ℚ) * ((bottom : ℚ) - (top : ℚ))) / ((cp : ℚ) - 1))
      if checkY = centerY then none
      else if 0 ≤ leftCol ∧ leftCol < MAP_WIDTH ∧ 0 ≤ checkY ∧ checkY < MAP_HEIGHT ∧ m checkY leftCol = true
      then some ((leftCol : ℚ) + 1) else none) cp.toNat)

/-- checkHorizontalCollision from servercode.js, as a function from the
proposed newX to the snapped pos_x (some) on collision, none otherwise.
The source mutates character.pos_x and returns a boolean; the returned
option value is exactly the snapped pos_x it writes. -/
def checkHorizontalCollision (m : GameMap) (newX y : ℚ) (ch : Character) : Option ℚ :=
  if 0 < ch.vel_x then
    match raycastRight m ch newX y with
    | some v => some v
    | none => endpointRight m ch newX y
  else if ch.vel_x < 0 then
    match raycastLeft m ch newX y with
    | some v => some v
    | none => endpointLeft m ch newX y
  else none

/-- Ray cast of checkVerticalCollision for downward movement: leading
bottom edge row floor(interp) + height, snapping pos_y to the hit row
minus the height. -/
def raycastDown (m : GameMap) (ch : Character) (x newY : ℚ) : Option ℚ :=
  let leftCol : ℤ := qfloor x
  let rightCol : ℤ := qfloor (x + (ch.width : ℚ) - 1)
  let cp := checkPointsFor leftCol rightCol
  let steps := stepsFor (qabs (newY - ch.pos_y))
  (firstSome (fun step =>
    let t : ℚ := (step : ℚ) / ((steps : ℚ) - 1)
    let checkY : ℤ := qfloor (ch.pos_y + t * (newY - ch.pos_y))
    vScanRow m (checkY + ch.height) leftCol rightCol cp) steps.toNat).map
    (fun row => (row : ℚ) - (ch.height : ℚ))

/-- Endpoint check of checkVerticalCollision for downward movement. -/
def endpointDown (m : GameMap) (ch : Character) (x newY : ℚ) : Option ℚ :=
  let leftCol : ℤ := qfloor x
  let rightCol : ℤ := qfloor (x + (ch.width : ℚ) - 1)
  let cp := checkPointsFor leftCol rightCol
  let bottom : ℤ := qfloor newY + ch.height
  let centerX : ℤ := qfloor ((leftCol : ℚ) + ((rightCol : ℚ) - (leftCol : ℚ)) / 2)
  if 0 ≤ centerX ∧ centerX < MAP_WIDTH ∧ 0 ≤ bottom ∧ bottom < MAP_HEIGHT ∧ m bottom centerX = true
  then some ((bottom : ℚ) - (ch.height : ℚ))
  else
    (firstSome (fun i =>
      let checkX : ℤ := qfloor ((leftCol : ℚ) + ((i : ℚ) * ((rightCol : ℚ) - (leftCol : ℚ))) / ((cp : ℚ) - 1))
      if checkX = centerX then none
      else if 0 ≤ checkX ∧ checkX < MAP_WIDTH ∧ 0 ≤ bottom ∧ bottom < MAP_HEIGHT ∧ m bottom checkX = true
      then some ((bottom : ℚ) - (ch.height : ℚ)) else none) cp.toNat)

/-- Ray cast of checkVerticalCollision for upward movement: leading top
edge row floor(interp), snapping pos_y to the hit row plus one. -/
def raycastUp (m : GameMap) (ch : Character) (x newY : ℚ) : Option ℚ :=
  let leftCol : ℤ := qfloor x
  let rightCol : ℤ := qfloor (x + (ch.width : ℚ) - 1)
  let cp := checkPointsFor leftCol rightCol
  let steps := stepsFor (qabs (newY - ch.pos_y))
  (firstSome (fun step =>
    let t : ℚ := (step : ℚ) / ((steps : ℚ) - 1)
    let checkY : ℤ := qfloor (ch.pos_y + t * (newY - ch.pos_y))
    vScanRow m checkY leftCol rightCol cp) steps.toNat).map
    (fun row => (row : ℚ) + 1)

/-- Endpoint check of checkVerticalCollision for upward movement. -/
def endpointUp (m : GameMap) (ch : Character) (x newY : ℚ) : Option ℚ :=
  let leftCol : ℤ := qfloor x
  let rightCol : ℤ := qfloor (x + (ch.width : ℚ) - 1)
  let cp := checkPointsFor leftCol rightCol
  let top : ℤ := qfloor newY
  let centerX : ℤ := qfloor ((leftCol : ℚ) + ((rightCol : ℚ) - (leftCol : ℚ)) / 2)
  if 0 ≤ centerX ∧ centerX < MAP_WIDTH ∧ 0 ≤ top ∧ top < MAP_HEIGHT ∧ m top centerX = true
  then some ((top : ℚ) + 1)
  else
    (firstSome (fun i =>
      let checkX : ℤ := qfloor ((leftCol : ℚ) + ((i : ℚ) * ((rightCol : ℚ) - (leftCol : ℚ))) / ((cp : ℚ) - 1))
      if checkX = centerX then none
      else if 0 ≤ checkX ∧ checkX < MAP_WIDTH ∧ 0 ≤ top ∧ top < MAP_HEIGHT ∧ m top checkX = true
      then some ((top : ℚ) + 1) else none) cp.toNat)

/-- checkVerticalCollision from servercode.js, as a function from the
proposed newY to the snapped pos_y (some) on collision, none otherwise. -/
def checkVerticalCollision (m : GameMap) (x newY : ℚ) (ch : Character) : Option ℚ :=
  if 0 < ch.vel_y then
    match raycastDown m ch x newY with
    | some v => some v
    | none => endpointDown m ch x newY
  else if ch.vel_y < 0 then
    match raycastUp m ch x newY with
    | some v => some v
    | none => endpointUp m ch x newY
  else none

/-- Horizontal half of movePlayerWithCollision: advance pos_x by
vel_x * dt, or take the snapped position and zero vel_x on collision. -/
def moveHorizontal (m : GameMap) (dt : ℚ) (ch : Character) : Character :=
  let newX := ch.pos_x + ch.vel_x * dt
  match checkHorizontalCollision m newX ch.pos_y ch with
  | none => { ch with pos_x := newX }
  | some x => { ch with pos_x := x, vel_x := 0 }

/-- Vertical half of movePlayerWithCollision: advance pos_y by
vel_y * dt and clear onGround, or take the snapped position, set
onGround when falling, and zero vel_y on collision. -/
def moveVertical (m : GameMap) (dt : ℚ) (ch : Character) : Character :=
  let newY := ch.pos_y + ch.vel_y * dt
  match checkVerticalCollision m ch.pos_x newY ch with
  | none => { ch with pos_y := newY, onGround := false }
  | some y =>
    let og : Bool := if 0 < ch.vel_y then true else ch.onGround
    { ch with pos_y := y, vel_y := 0, onGround := og }

/-- movePlayerWithCollision from servercode.js: horizontal phase, then
vertical phase, then the fell-off-the-map check, which resets the
position to (50, 200) and zeroes the velocity (playerHit). -/
def movePlayerWithCollision (m : GameMap) (dt : ℚ) (ch : Character) : Character :=
  let ch1 := moveHorizontal m dt ch
  let ch2 := moveVertical m dt ch1
  if (MAP_HEIGHT : ℚ) < ch2.pos_y then
    { ch2 with pos_x := 50, pos_y := 200, vel_x := 0, vel_y := 0 }
  else ch2

/-- processPlayerInput from servercode.js: reset vel_x, then apply the
stored key state (left, right, jump, variable jump height). -/
def processPlayerInput (p : Character) : Character :=
  let p := { p with vel_x := 0 }
  match p.keys with
  | none => p
  | some k =>
    let p := if k.left then { p with vel_x := -speed, facingRight := false } else p
    let p := if k.right then { p with vel_x := speed, facingRight := true } else p
    let p := if k.jump && p.onGround then { p with vel_y := jumpSpeed, onGround := false } else p
    let p := if !k.jump && decide (p.vel_y < minJumpVelocity) then { p with vel_y := minJumpVelocity } else p
    p

/-- One authoritative tick for one player, as performed by the game
loop: process input, integrate gravity with dt = TICK_RATE / 1000, and
move with collision. -/
def tickPlayer (m : GameMap) (p : Character) : Character :=
  let p := processPlayerInput p
  let p := { p with vel_y := p.vel_y + gravity * (TICK_RATE / 1000) }
  movePlayerWithCollision m (TICK_RATE / 1000) p

/-- The input message handler: store the key state and record the
sequence number in lastProcessedInput. -/
def handleInputMessage (p : Character) (k : Keys) (seq : ℕ) : Character :=
  { p with keys := some k, lastProcessedInput := seq }

/-- The world built by createMap in servercode.js: ground and grass on
the two bottom rows, four platforms, and two holes carved out of the
ground, translated assignment order faithfully (holes override ground). -/
def serverMap : GameMap := fun r c =>
  if ¬ (0 ≤ r ∧ r < MAP_HEIGHT ∧ 0 ≤ c ∧ c < MAP_WIDTH) then false
  else if (r = 238 ∨ r = 239) ∧ ((300 ≤ c ∧ c ≤ 350) ∨ (500 ≤ c ∧ c ≤ 530)) then false
  else if r = 238 ∨ r = 239 then true
  else if r = 180 ∧ 100 ≤ c ∧ c < 250 then true
  else if r = 150 ∧ 300 ≤ c ∧ c < 400 then true
  else if r = 120 ∧ 450 ≤ c ∧ c < 530 then true
  else if r = 150 ∧ 600 ≤ c ∧ c < 720 then true
  else false

/-- Server-side enemy record (the fields of gameState.enemies[i] that
the simulation reads or writes). -/
structure Enemy where
  x : ℚ
  y : ℚ
  width : ℚ
  height : ℚ
  vel_x : ℚ
  vel_y : ℚ
  leftBound : ℚ
  rightBound : ℚ
  facingRight : Bool
  defeated : Bool
  respawnTimer : ℚ
  originalX : ℚ
  originalY : ℚ
  animationFrame : ℕ
  animationTimer : ℚ
deriving DecidableEq, Repr

/-- addEnemy from servercode.js: a fresh enemy at (x, y) with patrol
bounds, velocity 50, facing right, not defeated. -/
def mkEnemy (x y lB rB : ℚ) : Enemy :=
  { x := x, y := y, width := 16, height := 16, vel_x := 50, vel_y := 0,
    leftBound := lB, rightBound := rB, facingRight := true, defeated := false,
    respawnTimer := 0, originalX := x, originalY := y,
    animationFrame := 0, animationTimer := 0 }

/-- The slime enemy of createEnemies: addEnemy(200, 238 - 16, slime, 150, 250). -/
def slimeE : Enemy := mkEnemy 200 222 150 250

/-- The robot enemy of createEnemies: addEnemy(400, 238 - 16, robot, 380, 480). -/
def robotE : Enemy := mkEnemy 400 222 380 480

/-- The bat enemy of createEnemies: addEnemy(650, 148 - 16, bat, 600, 700). -/
def batE : Enemy := mkEnemy 650 132 600 700

/-- createEnemies from servercode.js: the three enemies the server
spawns (slime, robot, bat), at y = 238 - 16 and 148 - 16. -/
def initialEnemies : List Enemy :=
  [slimeE, robotE, batE]

/-- The per-enemy body of updateEnemies in servercode.js: a defeated
enemy counts down its respawn timer and respawns at its original
position with velocity 50 when the timer reaches zero; a live enemy
moves by vel_x * dt in the direction of its facing flag, reverses the
flag on reaching a patrol bound, and advances its animation. -/
def updateEnemyServer (dt : ℚ) (e : Enemy) : Enemy :=
  if e.defeated then
    let t := e.respawnTimer - dt
    if t ≤ 0 then
      { e with respawnTimer := t, defeated := false, x := e.originalX, y := e.originalY, vel_x := 50 }
    else { e with respawnTimer := t }
  else
    let e1 :=
      if e.facingRight then
        let x := e.x + e.vel_x * dt
        if e.rightBound ≤ x then { e with x := x, facingRight := false } else { e with x := x }
      else
        let x := e.x - e.vel_x * dt
        if x ≤ e.leftBound then { e with x := x, facingRight := true } else { e with x := x }
    let t := e1.animationTimer + dt
    if (2 : ℚ)/10 ≤ t then { e1 with animationTimer := 0, animationFrame := (e1.animationFrame + 1) % 2 }
    else { e1 with animationTimer := t }

/-- Iterated authoritative enemy ticks with the game loop dt of
TICK_RATE / 1000 = 1/100 seconds. -/
def enemyTicks : ℕ → Enemy → Enemy
  | 0, e => e
  | n + 1, e => enemyTicks n (updateEnemyServer (TICK_RATE / 1000) e)

/-- playerHit from servercode.js, as it acts on the player record:
reset position to (50, 200) and zero the velocity. -/
def playerHitReset (p : Character) : Character :=
  { p with pos_x := 50, pos_y := 200, vel_x := 0, vel_y := 0 }

/-- The per-pair player versus enemy body of checkCollisions in
servercode.js.  The pixel-perfect fallback test
(checkCharacterEnemyCollision) is taken as a parameter: the stomp
branch is decided strictly before it, so every theorem below holds for
an arbitrary pixel test. -/
def interactPlayerEnemy (pixelHit : Character → Enemy → Bool) (p : Character) (e : Enemy) :
    Character × Enemy :=
  if e.defeated then (p, e)
  else
    let playerBottom := p.pos_y + (p.height : ℚ)
    let playerFeet := playerBottom - 2
    let enemyTop := e.y
    if 0 < p.vel_y ∧ playerFeet ≤ enemyTop ∧ enemyTop ≤ playerBottom ∧
        p.pos_x + 4 < e.x + e.width ∧ e.x < p.pos_x + (p.width : ℚ) - 4 then
      ({ p with vel_y := jumpSpeed * (7/10) },
       { e with defeated := true, respawnTimer := 5 })
    else if pixelHit p e then (playerHitReset p, e)
    else (p, e)

/-- Server-side collectible record. -/
structure Collectible where
  x : ℚ
  y : ℚ
  width : ℚ
  height : ℚ
  collected : Bool
deriving DecidableEq, Repr

/-- checkRectCollision from servercode.js (shared AABB overlap test). -/
def checkRectCollision (x1 y1 w1 h1 x2 y2 w2 h2 : ℚ) : Bool :=
  decide (x1 < x2 + w2) && decide (x2 < x1 + w1) && decide (y1 < y2 + h2) && decide (y2 < y1 + h1)

/-- The per-collectible body of the player versus collectible loop in
checkCollisions: an uncollected collectible overlapping the player
becomes collected. -/
def pickupStep (p : Character) (c : Collectible) : Collectible :=
  if c.collected = false ∧
      checkRectCollision p.pos_x p.pos_y (p.width : ℚ) (p.height : ℚ) c.x c.y c.width c.height = true
  then { c with collected := true } else c

/-- The player versus collectible loop of checkCollisions for one player. -/
def collectiblesPickup (p : Character) (cs : List Collectible) : List Collectible :=
  cs.map (pickupStep p)

/-- Setting collectibles[n].collected = true (leaving every other entry
alone). -/
def setCollected : List Collectible → ℕ → List Collectible
  | [], _ => []
  | c :: rest, 0 => { c with collected := true } :: rest
  | c :: rest, n + 1 => c :: setCollected rest n

/-- The collectCoin message handler in servercode.js: if the index is
within the array bounds, mark that collectible collected; otherwise do
nothing. -/
def handleCollectCoin (coinIndex : ℤ) (cs : List Collectible) : List Collectible :=
  if 0 ≤ coinIndex ∧ coinIndex < (cs.length : ℤ) then setCollected cs coinIndex.toNat else cs

/-- Setting enemies[n].defeated = true (client side). -/
def setDefeated : List Enemy → ℕ → List Enemy
  | [], _ => []
  | e :: rest, 0 => { e with defeated := true } :: rest
  | e :: rest, n + 1 => e :: setDefeated rest n

/-- The client handler of an enemyDefeated message: when the index is
within bounds, mark the enemy defeated and, when the defeating player
is this client, add 50 to the score; otherwise leave everything
unchanged.  The playerId comparison is passed as the boolean mine. -/
def handleEnemyDefeated (enemyIndex : ℤ) (mine : Bool) (enemies : List Enemy) (score : ℤ) :
    List Enemy × ℤ :=
  if 0 ≤ enemyIndex ∧ enemyIndex < (enemies.length : ℤ) then
    (setDefeated enemies enemyIndex.toNat, if mine then score + 50 else score)
  else (enemies, score)

/-- A client-side pending input: the sequence number, the key snapshot
and the frame delta stored for replay (the source stores dt = 1/60). -/
structure PendingInput where
  sequence : ℕ
  keys : Keys
  dt : ℚ
deriving DecidableEq, Repr

/-- sendInputToServer from the client source: the sequence number is
one more than the last pending sequence (or 1 on an empty queue); the
input is pushed with dt = 1/60, and when the queue length exceeds 20
the oldest entry is shifted off.  Returns the emitted sequence and the
new queue. -/
def sendInputToServer (k : Keys) (q : List PendingInput) : ℕ × List PendingInput :=
  let seq : ℕ :=
    match q.getLast? with
    | some l => l.sequence + 1
    | none => 1
  let q1 := q ++ [{ sequence := seq, keys := k, dt := 1/60 }]
  let q2 := if 20 < q1.length then q1.tail else q1
  (seq, q2)

/-- The authoritative player fields carried by a gameState snapshot and
read by reconcilePlayerPosition. -/
structure ServerSnap where
  pos_x : ℚ
  pos_y : ℚ
  vel_x : ℚ
  vel_y : ℚ
  onGround : Bool
  facingRight : Bool
  lastProcessedInput : ℕ
deriving DecidableEq, Repr

/-- The client-side character fields touched by reconciliation.  The
field spd is the local copy of the physics speed constant. -/
structure ClientChar where
  pos_x : ℚ
  pos_y : ℚ
  vel_x : ℚ
  vel_y : ℚ
  onGround : Bool
  facingRight : Bool
  spd : ℚ
deriving DecidableEq, Repr

/-- The per-input body of the replay loop of reconcilePlayerPosition:
left subtracts speed * dt from pos_x, right adds it (collision-free
simplified model, as in the source). -/
def replayInput (c : ClientChar) (i : PendingInput) : ClientChar :=
  let c := if i.keys.left then { c with pos_x := c.pos_x - c.spd * i.dt } else c
  if i.keys.right then { c with pos_x := c.pos_x + c.spd * i.dt } else c

/-- reconcilePlayerPosition from the client source: drop every pending
input with sequence at most the acknowledged sequence, hard-overwrite
position, velocity, ground flag and facing from the snapshot, then
re-apply the remaining pending inputs in order. -/
def reconcilePlayerPosition (s : ServerSnap) (c : ClientChar) (q : List PendingInput) :
    ClientChar × List PendingInput :=
  let serverSequence := s.lastProcessedInput
  let q1 := q.filter (fun i => decide (serverSequence < i.sequence))
  let c1 : ClientChar :=
    { c with pos_x := s.pos_x, pos_y := s.pos_y, vel_x := s.vel_x, vel_y := s.vel_y,
             onGround := s.onGround, facingRight := s.facingRight }
  (q1.foldl replayInput c1, q1)

/-- Net signed replay time of a pending-input list: dt for a right key,
minus dt for a left key (both can apply to one input). -/
def netDt : List PendingInput → ℚ
  | [] => 0
  | i :: rest =>
    (if i.keys.right then i.dt else 0) - (if i.keys.left then i.dt else 0) + netDt rest

/-- HalfStep q means q is an integer multiple of one half, the exact
per-tick displacement of a server enemy (50 * 1/100). -/
def HalfStep (q : ℚ) : Prop := ∃ k : ℤ, q * 2 = (k : ℚ)

/-- The reachability invariant of a server enemy: velocity 50, original
position strictly inside the patrol bounds, x inside the bounds, all on
the half-unit lattice anchored at leftBound, and x at least half a unit
away from the bound the enemy is walking toward.  All three enemies
created by createEnemies satisfy it, and it is preserved by every
authoritative tick and by defeat events (which do not touch x). -/
def EnemyInv (e : Enemy) : Prop :=
  e.vel_x = 50 ∧
  HalfStep (e.rightBound - e.leftBound) ∧
  HalfStep (e.originalX - e.leftBound) ∧
  HalfStep (e.x - e.leftBound) ∧
  e.leftBound + 1/2 ≤ e.originalX ∧ e.originalX ≤ e.rightBound - 1/2 ∧
  e.leftBound ≤ e.x ∧ e.x ≤ e.rightBound ∧
  (e.facingRight = true → e.x ≤ e.rightBound - 1/2) ∧
  (e.facingRight = false → e.leftBound + 1/2 ≤ e.x)

/-- The player record created by the connection handler in
servercode.js: position (50, 100), zero velocity, 16 by 24, airborne,
facing right, no stored input. -/
def spawnPlayer : Character :=
  { pos_x := 50, pos_y := 100, vel_x := 0, vel_y := 0, width := 16, height := 24,
    onGround := false, facingRight := true, keys := none, lastProcessedInput := 0 }

/-- The key snapshot carried by the input message of the C2 scenario. -/
def keysRight : Keys := { left := false, right := true, jump := false }

/-- The C2 scenario player: spawnPlayer after the server has handled
the message input with keys right and sequence 1. -/
def playerC2 : Character := handleInputMessage spawnPlayer keysRight 1

/-- The C2 player after processPlayerInput (vel_x becomes 150). -/
def playerC2a : Character := { playerC2 with vel_x := 150 }

/-- The C2 player after gravity integration (vel_y becomes 8). -/
def playerC2b : Character := { playerC2a with vel_y := 8 }

/-- The C2 player after the horizontal move (pos_x becomes 51.5). -/
def playerC2c : Character := { playerC2b with pos_x := 103/2 }

/-- A world whose only solid cells form a single one-cell-wide solid
column at x = 17 (spanning every row); the thinnest possible solid
tile. -/
def wallMap1 : GameMap := fun _ c => decide (c = 17)

/-- The tunneling character for the C1 counterexample: width 16 at
x = 0, moving right at 400 units per second. -/
def chTunnel : Character :=
  { pos_x := 0, pos_y := 0, vel_x := 400, vel_y := 0, width := 16, height := 24,
    onGround := false, facingRight := true, keys := none, lastProcessedInput := 0 }

/-- A world whose solid cells form a four-cell-wide solid column at
columns 20 to 23 (used to witness the amended C1 statement). -/
def wallMap4R : GameMap := fun _ c => decide (20 ≤ c ∧ c < 24)

/-- A world whose solid cells form a four-cell-tall solid floor slab at
rows 200 to 203 (used to witness the vertical case of amended C1). -/
def floorMap4 : GameMap := fun r _ => decide (200 ≤ r ∧ r < 204)

/-- A falling character above the floorMap4 slab. -/
def chFall : Character :=
  { pos_x := 50, pos_y := 100, vel_x := 0, vel_y := 1000, width := 16, height := 24,
    onGround := false, facingRight := true, keys := none, lastProcessedInput := 0 }

/-- A character moving left toward the wallMap4R column. -/
def chLeftW : Character :=
  { pos_x := 100, pos_y := 0, vel_x := -770, vel_y := 0, width := 16, height := 24,
    onGround := false, facingRight := false, keys := none, lastProcessedInput := 0 }

/-- A character moving up toward the floorMap4 slab from below. -/
def chUpW : Character :=
  { pos_x := 50, pos_y := 220, vel_x := 0, vel_y := -170, width := 16, height := 24,
    onGround := false, facingRight := true, keys := none, lastProcessedInput := 0 }

/-- An enemy standing 0.1 units short of its right patrol bound while
walking right: one authoritative tick (step 0.5 units) carries it 0.4
units past the bound, because the server applies no clamping. -/
def enemyOvershoot : Enemy := { mkEnemy 5 222 0 10 with x := 9 + 9/10 }

/-- The slime enemy in the reachable state exactly half a step short of
its right patrol bound (reached from spawn after 99 ticks). -/
def enemyAtBound : Enemy := { slimeE with x := 249 + 1/2 }

/-- A defeated slime whose respawn timer has exactly one tick left. -/
def enemyDefeatedE : Enemy := { slimeE with defeated := true, respawnTimer := 1/100, x := 230 }

/-- An enemy standing at (100, 200) used by the stomp scenarios. -/
def eStomp : Enemy := mkEnemy 100 200 90 110

/-- A player falling onto eStomp with full stomp overlap: feet at 201,
one unit below the enemy top at 200, horizontal overlap 11 units on the
right side and 21 on the left. -/
def pStomp : Character :=
  { pos_x := 95, pos_y := 177, vel_x := 0, vel_y := 10, width := 16, height := 24,
    onGround := false, facingRight := true, keys := none, lastProcessedInput := 0 }

/-- The same falling player shifted so the overlap with eStomp is
exactly 4 units (the boundary case of the stomp overlap test). -/
def pEdge : Character := { pStomp with pos_x := 88 }

/-- A coin as created by addCollectible (8 by 8, not collected). -/
def coinA : Collectible := { x := 150, y := 160, width := 8, height := 8, collected := false }

/-- A concrete authoritative snapshot of the local player. -/
def snap0 : ServerSnap :=
  { pos_x := 10, pos_y := 20, vel_x := 0, vel_y := 0, onGround := true, facingRight := true,
    lastProcessedInput := 2 }

/-- The same snapshot acknowledging sequence 1. -/
def snapAck1 : ServerSnap := { snap0 with lastProcessedInput := 1 }

/-- A concrete local client character. -/
def cchar0 : ClientChar :=
  { pos_x := 0, pos_y := 0, vel_x := 5, vel_y := 5, onGround := false, facingRight := false,
    spd := 150 }

/-- The same client character at a different predicted position. -/
def cchar1 : ClientChar := { cchar0 with pos_x := 999, pos_y := 77 }

/-- A concrete pending-input queue with sequences 1, 2, 3. -/
def pendQ : List PendingInput :=
  [{ sequence := 1, keys := keysRight, dt := 1/60 },
   { sequence := 2, keys := keysRight, dt := 1/60 },
   { sequence := 3, keys := keysRight, dt := 1/60 }]

/-- A concrete pending-input queue with sequences 1, 2. -/
def pendQ2 : List PendingInput :=
  [{ sequence := 1, keys := keysRight, dt := 1/60 },
   { sequence := 2, keys := keysRight, dt := 1/60 }]

end Pixelknight

namespace Pixelknight

/-- Rat.floor agrees with the Mathlib floor on the rationals. -/
theorem qfloor_eq (q : ℚ) : qfloor q = ⌊q⌋ := by
  rw [qfloor, Rat.floor_def', Rat.floor_def]

/-- Rat.ceil agrees with the Mathlib ceiling on the rationals. -/
theorem qceil_eq (q : ℚ) : qceil q = ⌈q⌉ := by
  rw [qceil, Rat.ceil]
  split
  · rename_i h
    have hq : ((q.num : ℚ)) = q := by
      conv_rhs => rw [← Rat.num_div_den q]
      rw [h]
      push_cast
      ring
    conv_rhs => rw [← hq]
    rw [Int.ceil_intCast]
  · rename_i h
    have hlt : ((⌊q⌋ : ℚ)) < q := by
      rcases lt_or_eq_of_le (Int.floor_le q) with hlt | heq
      · exact hlt
      · exfalso
        apply h
        rw [← heq]
        exact Rat.den_intCast _
    have hceil : ⌈q⌉ = ⌊q⌋ + 1 := by
      rw [Int.ceil_eq_iff]
      constructor
      · push_cast
        linarith
      · push_cast
        linarith [Int.lt_floor_add_one q]
    rw [hceil, Rat.floor_def]

/-- The explicit absolute value agrees with the Mathlib one. -/
theorem qabs_eq (q : ℚ) : qabs q = |q| := by
  rw [qabs]
  split
  · rename_i h
    rw [abs_of_neg h]
  · rename_i h
    rw [abs_of_nonneg (le_of_not_lt h)]

/-- The explicit integer max agrees with the Mathlib one. -/
theorem zmax_eq (a b : ℤ) : zmax a b = max a b := by
  rw [zmax, max_def]

set_option maxRecDepth 8000

/-- Staged concrete evaluation of the C2 scenario tick. -/
theorem tickC2_eval :
    (tickPlayer serverMap playerC2).pos_x = 103/2 ∧
    (tickPlayer serverMap playerC2).pos_y = 2502/25 ∧
    (tickPlayer serverMap playerC2).vel_x = 150 ∧
    (tickPlayer serverMap playerC2).vel_y = 8 ∧
    (tickPlayer serverMap playerC2).lastProcessedInput = 1 := by
  have h1 : processPlayerInput playerC2 = playerC2a := by
    with_unfolding_all decide
  have h2 : ({ playerC2a with vel_y := playerC2a.vel_y + gravity * (TICK_RATE / 1000) } : Character) = playerC2b := by
    with_unfolding_all decide
  have h3 : moveHorizontal serverMap (TICK_RATE / 1000) playerC2b = playerC2c := by
    with_unfolding_all decide
  have hcv : checkVerticalCollision serverMap playerC2c.pos_x (playerC2c.pos_y + playerC2c.vel_y * (TICK_RATE / 1000)) playerC2c = none := by
    with_unfolding_all decide
  have h4 : moveVertical serverMap (TICK_RATE / 1000) playerC2c = ({ playerC2c with pos_y := playerC2c.pos_y + playerC2c.vel_y * (TICK_RATE / 1000), onGround := false } : Character) := by
    simp only [moveVertical, hcv]
  have hya : playerC2c.pos_y = 100 := by with_unfolding_all decide
  have hyb : playerC2c.vel_y = 8 := by with_unfolding_all decide
  have hy : playerC2c.pos_y + playerC2c.vel_y * (TICK_RATE / 1000) = 2502/25 := by
    rw [hya, hyb]
    simp only [TICK_RATE]
    norm_num
  have hfall : ¬ ((MAP_HEIGHT : ℚ) < (({ playerC2c with pos_y := playerC2c.pos_y + playerC2c.vel_y * (TICK_RATE / 1000), onGround := false } : Character)).pos_y) := by
    show ¬ ((MAP_HEIGHT : ℚ) < playerC2c.pos_y + playerC2c.vel_y * (TICK_RATE / 1000))
    rw [hy]
    simp only [MAP_HEIGHT]
    push_cast
    norm_num
  have hmain : tickPlayer serverMap playerC2 = ({ playerC2c with pos_y := playerC2c.pos_y + playerC2c.vel_y * (TICK_RATE / 1000), onGround := false } : Character) := by
    simp only [tickPlayer, movePlayerWithCollision, h1, h2, h3, h4]
    rw [if_neg hfall]
  refine ⟨?_, ?_, ?_, ?_, ?_⟩ <;> rw [hmain]
  · show playerC2c.pos_x = 103/2
    with_unfolding_all decide
  · exact hy
  · show playerC2c.vel_x = 150
    with_unfolding_all decide
  · show playerC2c.vel_y = 8
    with_unfolding_all decide
  · show playerC2c.lastProcessedInput = 1
    with_unfolding_all decide

/-- A scan finds a hit whenever some index below count yields some. -/
theorem firstSomeAux_isSome {α : Type} (f : ℕ → Option α) :
    ∀ (count start k : ℕ), k < count → (f (start + k)).isSome = true →
      (firstSomeAux f start count).isSome = true := by
  intro count
  induction count with
  | zero => intro start k hk hf; omega
  | succ c ih =>
    intro start k hk hf
    rw [firstSomeAux]
    cases hs : f start with
    | none =>
      show (firstSomeAux f (start + 1) c).isSome = true
      cases k with
      | zero =>
        rw [Nat.add_zero, hs] at hf
        simp at hf
      | succ k =>
        exact ih (start + 1) k (by omega) (by rw [Nat.add_right_comm]; exact hf)
    | some v =>
      show (some v).isSome = true
      simp

/-- Every value produced by a scan comes from some index below count. -/
theorem firstSomeAux_sound {α : Type} (f : ℕ → Option α) (P : α → Prop) :
    ∀ (count start : ℕ), (∀ k, k < count → ∀ v, f (start + k) = some v → P v) →
      ∀ v, firstSomeAux f start count = some v → P v := by
  intro count
  induction count with
  | zero => intro start _ v hv; rw [firstSomeAux] at hv; exact absurd hv (by simp)
  | succ c ih =>
    intro start h v hv
    rw [firstSomeAux] at hv
    cases hs : f start with
    | none =>
      rw [hs] at hv
      exact ih (start + 1) (fun k hk w hw => h (1 + k) (by omega) w (by rwa [← Nat.add_assoc])) v hv
    | some u =>
      rw [hs] at hv
      have h2 : some u = some v := hv
      cases h2
      exact h 0 (by omega) v (by rw [Nat.add_zero]; exact hs)

/-- A firstSome scan finds a hit whenever some index below n yields some. -/
theorem firstSome_isSome {α : Type} (f : ℕ → Option α) (n k : ℕ) (hk : k < n)
    (hf : (f k).isSome = true) : (firstSome f n).isSome = true :=
  firstSomeAux_isSome f n 0 k hk (by rwa [Nat.zero_add])

/-- Every value produced by a firstSome scan satisfies any property that
all possible hits satisfy. -/
theorem firstSome_sound {α : Type} (f : ℕ → Option α) (P : α → Prop) (n : ℕ)
    (h : ∀ k, k < n → ∀ v, f k = some v → P v) :
    ∀ v, firstSome f n = some v → P v :=
  firstSomeAux_sound f P n 0 (fun k hk v hv => h k hk v (by rwa [Nat.zero_add] at hv))

/-- The step count is at least five. -/
theorem stepsFor_ge (d : ℚ) : 5 ≤ stepsFor d := by
  rw [stepsFor, zmax_eq]
  exact le_max_left 5 _

/-- The sample point count is at least five. -/
theorem checkPointsFor_ge (lo hi : ℤ) : 5 ≤ checkPointsFor lo hi := by
  rw [checkPointsFor, zmax_eq]
  exact le_max_left 5 _

/-- The ray-march spacing is strictly below four units: the step count
grows by one for every four units of displacement. -/
theorem stepsFor_spacing {d : ℚ} (hd : 0 < d) :
    d / ((stepsFor d : ℚ) - 1) < 4 ∧ 0 < ((stepsFor d : ℚ) - 1) := by
  have hS : 5 ≤ stepsFor d := stepsFor_ge d
  have hS1 : (4 : ℚ) ≤ (stepsFor d : ℚ) - 1 := by
    have : ((5 : ℤ) : ℚ) ≤ ((stepsFor d : ℤ) : ℚ) := by exact_mod_cast hS
    push_cast at this
    linarith
  have hpos : 0 < ((stepsFor d : ℚ) - 1) := by linarith
  refine ⟨?_, hpos⟩
  have hceil : d / 4 ≤ ((qceil (d / 4) : ℤ) : ℚ) := by
    rw [qceil_eq]
    exact Int.le_ceil (d / 4)
  have hsteps : qceil (d / 4) + 2 ≤ stepsFor d - 1 := by
    rw [stepsFor, zmax_eq]
    have : qceil (d / 4) + 3 ≤ max 5 (qceil (d / 4) + 3) := le_max_right 5 _
    omega
  have hqd : d / 4 < (stepsFor d : ℚ) - 1 := by
    have h2 : ((qceil (d / 4) + 2 : ℤ) : ℚ) ≤ ((stepsFor d - 1 : ℤ) : ℚ) := by exact_mod_cast hsteps
    push_cast at h2
    linarith
  rw [div_lt_iff hpos]
  linarith

/-- The floor advances by at most four when the argument advances by
less than four. -/
theorem floor_gap_up {x s : ℚ} (h0 : 0 ≤ s) (h4 : s < 4) : ⌊x + s⌋ ≤ ⌊x⌋ + 4 := by
  have h1 : x + s < ((⌊x⌋ + 5 : ℤ) : ℚ) := by
    have := Int.lt_floor_add_one x
    push_cast
    linarith
  have := Int.floor_lt.mpr h1
  omega

/-- The floor recedes by at most four when the argument recedes by less
than four. -/
theorem floor_gap_down {x s : ℚ} (h0 : s ≤ 0) (h4 : -4 < s) : ⌊x⌋ - 4 ≤ ⌊x + s⌋ := by
  have h1 : ((⌊x⌋ - 4 : ℤ) : ℚ) ≤ x + s := by
    have := Int.floor_le x
    push_cast
    linarith
  have := Int.le_floor.mpr h1
  omega

/-- Rising ray-march sampling: when the floored positions of the start
and the destination straddle a threshold a, some sample of the march
lands with floor in the window from a to a + 3. -/
theorem sample_window_pos (p δ : ℚ) (hδ : 0 < δ) (a : ℤ)
    (h0 : ⌊p⌋ < a) (hN : a ≤ ⌊p + δ⌋) :
    ∃ k : ℕ, (k : ℤ) < stepsFor (qabs δ) ∧
      a ≤ qfloor (p + ((k : ℚ) / ((stepsFor (qabs δ) : ℚ) - 1)) * δ) ∧
      qfloor (p + ((k : ℚ) / ((stepsFor (qabs δ) : ℚ) - 1)) * δ) ≤ a + 3 := by
  have habs : qabs δ = δ := by
    rw [qabs, if_neg (not_lt.mpr (le_of_lt hδ))]
  simp only [qfloor_eq]
  rw [habs]
  obtain ⟨hsp, hpos⟩ := stepsFor_spacing hδ
  have hS : 5 ≤ stepsFor δ := stepsFor_ge δ
  set S : ℤ := stepsFor δ with hSdef
  set n : ℕ := S.toNat with hndef
  have hn5 : 5 ≤ n := by omega
  have hcast : ((n - 1 : ℕ) : ℚ) = (S : ℚ) - 1 := by
    have h1 : ((n - 1 : ℕ) : ℤ) = S - 1 := by omega
    exact_mod_cast congrArg (fun z : ℤ => (z : ℚ)) h1
  set u : ℕ → ℤ := fun k => ⌊p + ((k : ℚ) / ((S : ℚ) - 1)) * δ⌋ with hudef
  have hu0 : u 0 = ⌊p⌋ := by
    simp [hudef]
  have hulast : u (n - 1) = ⌊p + δ⌋ := by
    have : ((n - 1 : ℕ) : ℚ) / ((S : ℚ) - 1) * δ = δ := by
      rw [hcast, div_self (ne_of_gt hpos), one_mul]
    simp only [hudef, this]
  have hgap : ∀ k : ℕ, u (k + 1) ≤ u k + 4 := by
    intro k
    have harg : p + ((k + 1 : ℕ) : ℚ) / ((S : ℚ) - 1) * δ =
        (p + ((k : ℕ) : ℚ) / ((S : ℚ) - 1) * δ) + δ / ((S : ℚ) - 1) := by
      push_cast
      field_simp
      ring
    show ⌊p + ((k + 1 : ℕ) : ℚ) / ((S : ℚ) - 1) * δ⌋ ≤ ⌊p + ((k : ℕ) : ℚ) / ((S : ℚ) - 1) * δ⌋ + 4
    rw [harg]
    exact floor_gap_up (le_of_lt (div_pos hδ hpos)) hsp
  have hex : ∃ k : ℕ, a ≤ u k := ⟨n - 1, by rw [hulast]; exact hN⟩
  classical
  set k0 := Nat.find hex with hk0def
  have hk0P : a ≤ u k0 := Nat.find_spec hex
  have hk0le : k0 ≤ n - 1 := Nat.find_min' hex (by rw [hulast]; exact hN)
  have hk0ne : k0 ≠ 0 := by
    intro h
    rw [h, hu0] at hk0P
    omega
  obtain ⟨k1, hk1⟩ : ∃ k1, k0 = k1 + 1 := ⟨k0 - 1, by omega⟩
  have hk1lt : ¬ a ≤ u k1 := Nat.find_min hex (by omega)
  have hk1le : u k1 ≤ a - 1 := by omega
  refine ⟨k0, ?_, hk0P, ?_⟩
  · have h1 : k0 < n := by omega
    have h2 : (k0 : ℤ) < (n : ℤ) := by exact_mod_cast h1
    have h3 : (n : ℤ) = S := by rw [hndef]; exact Int.toNat_of_nonneg (by omega)
    omega
  · have hg := hgap k1
    rw [← hk1] at hg
    show u k0 ≤ a + 3
    omega

/-- Falling ray-march sampling: the descending counterpart of
sample_window_pos, landing in the window from b - 3 to b. -/
theorem sample_window_neg (p δ : ℚ) (hδ : δ < 0) (b : ℤ)
    (h0 : b < ⌊p⌋) (hN : ⌊p + δ⌋ ≤ b) :
    ∃ k : ℕ, (k : ℤ) < stepsFor (qabs δ) ∧
      b - 3 ≤ qfloor (p + ((k : ℚ) / ((stepsFor (qabs δ) : ℚ) - 1)) * δ) ∧
      qfloor (p + ((k : ℚ) / ((stepsFor (qabs δ) : ℚ) - 1)) * δ) ≤ b := by
  have habs : qabs δ = -δ := by
    rw [qabs, if_pos hδ]
  simp only [qfloor_eq]
  rw [habs]
  have hneg : 0 < -δ := by linarith
  obtain ⟨hsp, hpos⟩ := stepsFor_spacing hneg
  have hS : 5 ≤ stepsFor (-δ) := stepsFor_ge (-δ)
  set S : ℤ := stepsFor (-δ) with hSdef
  set n : ℕ := S.toNat with hndef
  have hn5 : 5 ≤ n := by omega
  have hcast : ((n - 1 : ℕ) : ℚ) = (S : ℚ) - 1 := by
    have h1 : ((n - 1 : ℕ) : ℤ) = S - 1 := by omega
    exact_mod_cast congrArg (fun z : ℤ => (z : ℚ)) h1
  set u : ℕ → ℤ := fun k => ⌊p + ((k : ℚ) / ((S : ℚ) - 1)) * δ⌋ with hudef
  have hu0 : u 0 = ⌊p⌋ := by
    simp [hudef]
  have hulast : u (n - 1) = ⌊p + δ⌋ := by
    have : ((n - 1 : ℕ) : ℚ) / ((S : ℚ) - 1) * δ = δ := by
      rw [hcast, div_self (ne_of_gt hpos), one_mul]
    simp only [hudef, this]
  have hgap : ∀ k : ℕ, u k - 4 ≤ u (k + 1) := by
    intro k
    have harg : p + ((k + 1 : ℕ) : ℚ) / ((S : ℚ) - 1) * δ =
        (p + ((k : ℕ) : ℚ) / ((S : ℚ) - 1) * δ) + δ / ((S : ℚ) - 1) := by
      push_cast
      field_simp
      ring
    show u k - 4 ≤ ⌊p + ((k + 1 : ℕ) : ℚ) / ((S : ℚ) - 1) * δ⌋
    rw [harg]
    refine floor_gap_down ?_ ?_
    · exact le_of_lt (div_neg_of_neg_of_pos hδ hpos)
    · have h1 : -δ / ((S : ℚ) - 1) < 4 := hsp
      have h2 : -δ / ((S : ℚ) - 1) = -(δ / ((S : ℚ) - 1)) := by ring
      linarith [h2 ▸ h1]
  have hex : ∃ k : ℕ, u k ≤ b := ⟨n - 1, by rw [hulast]; exact hN⟩
  classical
  set k0 := Nat.find hex with hk0def
  have hk0P : u k0 ≤ b := Nat.find_spec hex
  have hk0le : k0 ≤ n - 1 := Nat.find_min' hex (by rw [hulast]; exact hN)
  have hk0ne : k0 ≠ 0 := by
    intro h
    rw [h, hu0] at hk0P
    omega
  obtain ⟨k1, hk1⟩ : ∃ k1, k0 = k1 + 1 := ⟨k0 - 1, by omega⟩
  have hk1lt : ¬ u k1 ≤ b := Nat.find_min hex (by omega)
  have hk1le : b + 1 ≤ u k1 := by omega
  refine ⟨k0, ?_, ?_, hk0P⟩
  · have h1 : k0 < n := by omega
    have h2 : (k0 : ℤ) < (n : ℤ) := by exact_mod_cast h1
    have h3 : (n : ℤ) = S := by rw [hndef]; exact Int.toNat_of_nonneg (by omega)
    omega
  · have hg := hgap k1
    rw [← hk1] at hg
    show b - 3 ≤ u k0
    omega

/-- A column scan hits as soon as the column is in bounds, the top row
is in bounds, and the map is solid at the top row of the column (the
first sample row of the scan is exactly the top row). -/
theorem hScanColumn_isSome (m : GameMap) (col top bottom cp : ℤ) (h5 : 5 ≤ cp)
    (h1 : 0 ≤ col) (h2 : col < MAP_WIDTH) (h3 : 0 ≤ top) (h4 : top < MAP_HEIGHT)
    (hsolid : m top col = true) : (hScanColumn m col top bottom cp).isSome = true := by
  apply firstSome_isSome _ _ 0 (by omega)
  have hy : qfloor ((top : ℚ) + (((0 : ℕ) : ℚ) * ((bottom : ℚ) - (top : ℚ))) / ((cp : ℚ) - 1)) = top := by
    rw [Nat.cast_zero, zero_mul, zero_div, add_zero, qfloor_eq, Int.floor_intCast]
  simp only [hy]
  rw [if_pos ⟨h1, h2, h3, h4, hsolid⟩]
  simp

/-- Every hit of a column scan is the scanned column itself, and the map
is solid somewhere on that column. -/
theorem hScanColumn_sound (m : GameMap) (col top bottom cp : ℤ) :
    ∀ v, hScanColumn m col top bottom cp = some v → v = col ∧ ∃ r, m r col = true := by
  apply firstSome_sound
  intro k _ v hv
  by_cases hc : 0 ≤ col ∧ col < MAP_WIDTH ∧
      0 ≤ qfloor ((top : ℚ) + (((k : ℕ) : ℚ) * ((bottom : ℚ) - (top : ℚ))) / ((cp : ℚ) - 1)) ∧
      qfloor ((top : ℚ) + (((k : ℕ) : ℚ) * ((bottom : ℚ) - (top : ℚ))) / ((cp : ℚ) - 1)) < MAP_HEIGHT ∧
      m (qfloor ((top : ℚ) + (((k : ℕ) : ℚ) * ((bottom : ℚ) - (top : ℚ))) / ((cp : ℚ) - 1))) col = true
  · rw [if_pos hc] at hv
    cases hv
    exact ⟨rfl, _, hc.2.2.2.2⟩
  · rw [if_neg hc] at hv
    exact absurd hv (by simp)

/-- A row scan hits as soon as the row is in bounds, the left column is
in bounds, and the map is solid at the left column of the row. -/
theorem vScanRow_isSome (m : GameMap) (row lo hi cp : ℤ) (h5 : 5 ≤ cp)
    (h1 : 0 ≤ lo) (h2 : lo < MAP_WIDTH) (h3 : 0 ≤ row) (h4 : row < MAP_HEIGHT)
    (hsolid : m row lo = true) : (vScanRow m row lo hi cp).isSome = true := by
  apply firstSome_isSome _ _ 0 (by omega)
  have hx : qfloor ((lo : ℚ) + (((0 : ℕ) : ℚ) * ((hi : ℚ) - (lo : ℚ))) / ((cp : ℚ) - 1)) = lo := by
    rw [Nat.cast_zero, zero_mul, zero_div, add_zero, qfloor_eq, Int.floor_intCast]
  simp only [hx]
  rw [if_pos ⟨h1, h2, h3, h4, hsolid⟩]
  simp

/-- Every hit of a row scan is the scanned row itself, and the map is
solid somewhere on that row. -/
theorem vScanRow_sound (m : GameMap) (row lo hi cp : ℤ) :
    ∀ v, vScanRow m row lo hi cp = some v → v = row ∧ ∃ c, m row c = true := by
  apply firstSome_sound
  intro k _ v hv
  by_cases hc : 0 ≤ qfloor ((lo : ℚ) + (((k : ℕ) : ℚ) * ((hi : ℚ) - (lo : ℚ))) / ((cp : ℚ) - 1)) ∧
      qfloor ((lo : ℚ) + (((k : ℕ) : ℚ) * ((hi : ℚ) - (lo : ℚ))) / ((cp : ℚ) - 1)) < MAP_WIDTH ∧
      0 ≤ row ∧ row < MAP_HEIGHT ∧
      m row (qfloor ((lo : ℚ) + (((k : ℕ) : ℚ) * ((hi : ℚ) - (lo : ℚ))) / ((cp : ℚ) - 1))) = true
  · rw [if_pos hc] at hv
    cases hv
    exact ⟨rfl, _, hc.2.2.2.2⟩
  · rw [if_neg hc] at hv
    exact absurd hv (by simp)

/-- Rightward no-tunneling for walls at least four cells wide: when the
world is a solid column spanning columns w to w + 3 (all rows), the
character is in the vertical map range, its right edge starts left of
the wall, and the requested displacement carries the right edge onto or
beyond the wall, then checkHorizontalCollision reports a collision that
snaps the right edge inside the wall (never past its far side), and the
move step installs exactly that position with zeroed vel_x. -/
theorem checkH_right_halts (m : GameMap) (w : ℤ) (ch : Character) (dt : ℚ)
    (hm : ∀ r c, m r c = decide (w ≤ c ∧ c < w + 4))
    (hv : 0 < ch.vel_x) (hdt : 0 < dt)
    (hstart : qfloor ch.pos_x + ch.width < w)
    (hreach : w ≤ qfloor (ch.pos_x + ch.vel_x * dt) + ch.width)
    (hw0 : 0 ≤ w) (hw1 : w + 4 ≤ MAP_WIDTH)
    (hy0 : 0 ≤ qfloor ch.pos_y) (hy1 : qfloor ch.pos_y < MAP_HEIGHT) :
    ∃ x' : ℚ, checkHorizontalCollision m (ch.pos_x + ch.vel_x * dt) ch.pos_y ch = some x' ∧
      (w : ℚ) ≤ x' + (ch.width : ℚ) ∧ x' + (ch.width : ℚ) < (w : ℚ) + 4 ∧
      (moveHorizontal m dt ch).pos_x = x' ∧ (moveHorizontal m dt ch).vel_x = 0 := by
  set newX : ℚ := ch.pos_x + ch.vel_x * dt with hnewX
  set top : ℤ := qfloor ch.pos_y with htop
  set bottom : ℤ := qfloor (ch.pos_y + (ch.height : ℚ) - 1) with hbottom
  set cp : ℤ := checkPointsFor top bottom with hcp
  set S : ℤ := stepsFor (qabs (newX - ch.pos_x)) with hS
  have hray : raycastRight m ch newX ch.pos_y =
      (firstSome (fun step =>
        hScanColumn m
          (qfloor (ch.pos_x + ((step : ℚ) / ((S : ℚ) - 1)) * (newX - ch.pos_x)) + ch.width)
          top bottom cp) S.toNat).map (fun col => (col : ℚ) - (ch.width : ℚ)) := rfl
  have hδ : 0 < newX - ch.pos_x := by
    rw [hnewX]
    have := mul_pos hv hdt
    linarith
  obtain ⟨k, hkS, hka, hkb⟩ :=
    sample_window_pos ch.pos_x (newX - ch.pos_x) hδ (w - ch.width)
      (by rw [qfloor_eq] at hstart; omega)
      (by rw [qfloor_eq] at hreach
          have harg : ch.pos_x + (newX - ch.pos_x) = newX := by ring
          rw [harg]
          omega)
  rw [← hS] at hkS hka hkb
  have hkS' : k < S.toNat := by
    have h5 : 5 ≤ S := by rw [hS]; exact stepsFor_ge _
    omega
  set colk : ℤ :=
    qfloor (ch.pos_x + ((k : ℚ) / ((S : ℚ) - 1)) * (newX - ch.pos_x)) + ch.width with hcolk
  have hcolk_lo : w ≤ colk := by
    rw [hcolk]
    omega
  have hcolk_hi : colk < w + 4 := by
    rw [hcolk]
    omega
  have hhit : ((firstSome (fun step =>
      hScanColumn m
        (qfloor (ch.pos_x + ((step : ℚ) / ((S : ℚ) - 1)) * (newX - ch.pos_x)) + ch.width)
        top bottom cp) S.toNat)).isSome = true := by
    apply firstSome_isSome _ _ k hkS'
    apply hScanColumn_isSome m colk top bottom cp (by rw [hcp]; exact checkPointsFor_ge _ _)
      (by omega) (by omega) hy0 hy1
    rw [hm]
    simp only [decide_eq_true_eq]
    exact ⟨hcolk_lo, hcolk_hi⟩
  obtain ⟨col0, hcol0⟩ := Option.isSome_iff_exists.mp hhit
  have hcol0w : w ≤ col0 ∧ col0 < w + 4 := by
    have hsound := firstSome_sound (fun step =>
        hScanColumn m
          (qfloor (ch.pos_x + ((step : ℚ) / ((S : ℚ) - 1)) * (newX - ch.pos_x)) + ch.width)
          top bottom cp)
      (fun v => w ≤ v ∧ v < w + 4) S.toNat ?_ col0 hcol0
    · exact hsound
    · intro j _ v hvj
      obtain ⟨hveq, r, hr⟩ := hScanColumn_sound m _ top bottom cp v hvj
      rw [hm] at hr
      rw [hveq]
      simpa only [decide_eq_true_eq] using hr
  have hcheck : checkHorizontalCollision m newX ch.pos_y ch = some ((col0 : ℚ) - (ch.width : ℚ)) := by
    rw [checkHorizontalCollision, if_pos hv, hray, hcol0]
    rfl
  refine ⟨(col0 : ℚ) - (ch.width : ℚ), hcheck, ?_, ?_, ?_, ?_⟩
  · have : ((col0 : ℚ)) - (ch.width : ℚ) + (ch.width : ℚ) = (col0 : ℚ) := by ring
    rw [this]
    exact_mod_cast hcol0w.1
  · have : ((col0 : ℚ)) - (ch.width : ℚ) + (ch.width : ℚ) = (col0 : ℚ) := by ring
    rw [this]
    have := hcol0w.2
    push_cast
    exact_mod_cast this
  · rw [moveHorizontal]
    rw [← hnewX, hcheck]
  · rw [moveHorizontal]
    rw [← hnewX, hcheck]

/-- Leftward no-tunneling for walls at least four cells wide: the
mirror image of checkH_right_halts, with the leading left edge snapped
to one right of the hit column, inside the wall. -/
theorem checkH_left_halts (m : GameMap) (w : ℤ) (ch : Character) (dt : ℚ)
    (hm : ∀ r c, m r c = decide (w ≤ c ∧ c < w + 4))
    (hv : ch.vel_x < 0) (hdt : 0 < dt)
    (hstart : w + 4 ≤ qfloor ch.pos_x)
    (hreach : qfloor (ch.pos_x + ch.vel_x * dt) ≤ w + 3)
    (hw0 : 0 ≤ w) (hw1 : w + 4 ≤ MAP_WIDTH)
    (hy0 : 0 ≤ qfloor ch.pos_y) (hy1 : qfloor ch.pos_y < MAP_HEIGHT) :
    ∃ x' : ℚ, checkHorizontalCollision m (ch.pos_x + ch.vel_x * dt) ch.pos_y ch = some x' ∧
      (w : ℚ) + 1 ≤ x' ∧ x' ≤ (w : ℚ) + 4 ∧
      (moveHorizontal m dt ch).pos_x = x' ∧ (moveHorizontal m dt ch).vel_x = 0 := by
  set newX : ℚ := ch.pos_x + ch.vel_x * dt with hnewX
  set top : ℤ := qfloor ch.pos_y with htop
  set bottom : ℤ := qfloor (ch.pos_y + (ch.height : ℚ) - 1) with hbottom
  set cp : ℤ := checkPointsFor top bottom with hcp
  set S : ℤ := stepsFor (qabs (newX - ch.pos_x)) with hS
  have hray : raycastLeft m ch newX ch.pos_y =
      (firstSome (fun step =>
        hScanColumn m
          (qfloor (ch.pos_x + ((step : ℚ) / ((S : ℚ) - 1)) * (newX - ch.pos_x)))
          top bottom cp) S.toNat).map (fun col => (col : ℚ) + 1) := rfl
  have hδ : newX - ch.pos_x < 0 := by
    rw [hnewX]
    have := mul_neg_of_neg_of_pos hv hdt
    linarith
  obtain ⟨k, hkS, hka, hkb⟩ :=
    sample_window_neg ch.pos_x (newX - ch.pos_x) hδ (w + 3)
      (by rw [qfloor_eq] at hstart; omega)
      (by rw [qfloor_eq] at hreach
          have harg : ch.pos_x + (newX - ch.pos_x) = newX := by ring
          rw [harg]
          omega)
  rw [← hS] at hkS hka hkb
  have hkS' : k < S.toNat := by
    have h5 : 5 ≤ S := by rw [hS]; exact stepsFor_ge _
    omega
  set colk : ℤ :=
    qfloor (ch.pos_x + ((k : ℚ) / ((S : ℚ) - 1)) * (newX - ch.pos_x)) with hcolk
  have hcolk_lo : w ≤ colk := by
    rw [hcolk]
    omega
  have hcolk_hi : colk < w + 4 := by
    rw [hcolk]
    omega
  have hhit : ((firstSome (fun step =>
      hScanColumn m
        (qfloor (ch.pos_x + ((step : ℚ) / ((S : ℚ) - 1)) * (newX - ch.pos_x)))
        top bottom cp) S.toNat)).isSome = true := by
    apply firstSome_isSome _ _ k hkS'
    apply hScanColumn_isSome m colk top bottom cp (by rw [hcp]; exact checkPointsFor_ge _ _)
      (by omega) (by omega) hy0 hy1
    rw [hm]
    simp only [decide_eq_true_eq]
    exact ⟨hcolk_lo, hcolk_hi⟩
  obtain ⟨col0, hcol0⟩ := Option.isSome_iff_exists.mp hhit
  have hcol0w : w ≤ col0 ∧ col0 < w + 4 := by
    have hsound := firstSome_sound (fun step =>
        hScanColumn m
          (qfloor (ch.pos_x + ((step : ℚ) / ((S : ℚ) - 1)) * (newX - ch.pos_x)))
          top bottom cp)
      (fun v => w ≤ v ∧ v < w + 4) S.toNat ?_ col0 hcol0
    · exact hsound
    · intro j _ v hvj
      obtain ⟨hveq, r, hr⟩ := hScanColumn_sound m _ top bottom cp v hvj
      rw [hm] at hr
      rw [hveq]
      simpa only [decide_eq_true_eq] using hr
  have hvne : ¬ (0 < ch.vel_x) := not_lt.mpr (le_of_lt hv)
  have hcheck : checkHorizontalCollision m newX ch.pos_y ch = some ((col0 : ℚ) + 1) := by
    rw [checkHorizontalCollision, if_neg hvne, if_pos hv, hray, hcol0]
    rfl
  refine ⟨(col0 : ℚ) + 1, hcheck, ?_, ?_, ?_, ?_⟩
  · have h1 : (w : ℚ) ≤ (col0 : ℚ) := by exact_mod_cast hcol0w.1
    linarith
  · have h1 : (col0 : ℚ) ≤ (w : ℚ) + 3 := by
      have := hcol0w.2
      have h2 : (col0 : ℤ) ≤ w + 3 := by omega
      exact_mod_cast h2
    linarith
  · rw [moveHorizontal]
    rw [← hnewX, hcheck]
  · rw [moveHorizontal]
    rw [← hnewX, hcheck]

/-- Downward no-tunneling for floor slabs at least four cells tall:
when the world is a solid horizontal slab spanning rows w to w + 3 (all
columns), the character is in the horizontal map range, its bottom edge
starts above the slab, and the requested downward displacement carries
the bottom edge onto or beyond the slab, then checkVerticalCollision
reports a collision that snaps the bottom edge inside the slab, and the
move step installs that position, zeroes vel_y, and sets onGround. -/
theorem checkV_down_halts (m : GameMap) (w : ℤ) (ch : Character) (dt : ℚ)
    (hm : ∀ r c, m r c = decide (w ≤ r ∧ r < w + 4))
    (hv : 0 < ch.vel_y) (hdt : 0 < dt)
    (hstart : qfloor ch.pos_y + ch.height < w)
    (hreach : w ≤ qfloor (ch.pos_y + ch.vel_y * dt) + ch.height)
    (hw0 : 0 ≤ w) (hw1 : w + 4 ≤ MAP_HEIGHT)
    (hx0 : 0 ≤ qfloor ch.pos_x) (hx1 : qfloor ch.pos_x < MAP_WIDTH) :
    ∃ y' : ℚ, checkVerticalCollision m ch.pos_x (ch.pos_y + ch.vel_y * dt) ch = some y' ∧
      (w : ℚ) ≤ y' + (ch.height : ℚ) ∧ y' + (ch.height : ℚ) < (w : ℚ) + 4 ∧
      (moveVertical m dt ch).pos_y = y' ∧ (moveVertical m dt ch).vel_y = 0 ∧
      (moveVertical m dt ch).onGround = true := by
  set newY : ℚ := ch.pos_y + ch.vel_y * dt with hnewY
  set lo : ℤ := qfloor ch.pos_x with hlo
  set hi : ℤ := qfloor (ch.pos_x + (ch.width : ℚ) - 1) with hhi
  set cp : ℤ := checkPointsFor lo hi with hcp
  set S : ℤ := stepsFor (qabs (newY - ch.pos_y)) with hS
  have hray : raycastDown m ch ch.pos_x newY =
      (firstSome (fun step =>
        vScanRow m
          (qfloor (ch.pos_y + ((step : ℚ) / ((S : ℚ) - 1)) * (newY - ch.pos_y)) + ch.height)
          lo hi cp) S.toNat).map (fun row => (row : ℚ) - (ch.height : ℚ)) := rfl
  have hδ : 0 < newY - ch.pos_y := by
    rw [hnewY]
    have := mul_pos hv hdt
    linarith
  obtain ⟨k, hkS, hka, hkb⟩ :=
    sample_window_pos ch.pos_y (newY - ch.pos_y) hδ (w - ch.height)
      (by rw [qfloor_eq] at hstart; omega)
      (by rw [qfloor_eq] at hreach
          have harg : ch.pos_y + (newY - ch.pos_y) = newY := by ring
          rw [harg]
          omega)
  rw [← hS] at hkS hka hkb
  have hkS' : k < S.toNat := by
    have h5 : 5 ≤ S := by rw [hS]; exact stepsFor_ge _
    omega
  set rowk : ℤ :=
    qfloor (ch.pos_y + ((k : ℚ) / ((S : ℚ) - 1)) * (newY - ch.pos_y)) + ch.height with hrowk
  have hrowk_lo : w ≤ rowk := by
    rw [hrowk]
    omega
  have hrowk_hi : rowk < w + 4 := by
    rw [hrowk]
    omega
  have hhit : ((firstSome (fun step =>
      vScanRow m
        (qfloor (ch.pos_y + ((step : ℚ) / ((S : ℚ) - 1)) * (newY - ch.pos_y)) + ch.height)
        lo hi cp) S.toNat)).isSome = true := by
    apply firstSome_isSome _ _ k hkS'
    apply vScanRow_isSome m rowk lo hi cp (by rw [hcp]; exact checkPointsFor_ge _ _)
      hx0 hx1 (by omega) (by omega)
    rw [hm]
    simp only [decide_eq_true_eq]
    exact ⟨hrowk_lo, hrowk_hi⟩
  obtain ⟨row0, hrow0⟩ := Option.isSome_iff_exists.mp hhit
  have hrow0w : w ≤ row0 ∧ row0 < w + 4 := by
    have hsound := firstSome_sound (fun step =>
        vScanRow m
          (qfloor (ch.pos_y + ((step : ℚ) / ((S : ℚ) - 1)) * (newY - ch.pos_y)) + ch.height)
          lo hi cp)
      (fun v => w ≤ v ∧ v < w + 4) S.toNat ?_ row0 hrow0
    · exact hsound
    · intro j _ v hvj
      obtain ⟨hveq, c, hc⟩ := vScanRow_sound m _ lo hi cp v hvj
      rw [hm] at hc
      rw [hveq]
      simpa only [decide_eq_true_eq] using hc
  have hcheck : checkVerticalCollision m ch.pos_x newY ch = some ((row0 : ℚ) - (ch.height : ℚ)) := by
    rw [checkVerticalCollision, if_pos hv, hray, hrow0]
    rfl
  refine ⟨(row0 : ℚ) - (ch.height : ℚ), hcheck, ?_, ?_, ?_, ?_, ?_⟩
  · have : ((row0 : ℚ)) - (ch.height : ℚ) + (ch.height : ℚ) = (row0 : ℚ) := by ring
    rw [this]
    exact_mod_cast hrow0w.1
  · have : ((row0 : ℚ)) - (ch.height : ℚ) + (ch.height : ℚ) = (row0 : ℚ) := by ring
    rw [this]
    have := hrow0w.2
    push_cast
    exact_mod_cast this
  · rw [moveVertical]
    rw [← hnewY, hcheck]
  · rw [moveVertical]
    rw [← hnewY, hcheck]
  · rw [moveVertical]
    rw [← hnewY, hcheck]
    simp only [if_pos hv]

/-- Upward no-tunneling for ceiling slabs at least four cells tall: the
mirror image of checkV_down_halts, with the leading top edge snapped to
one below the hit row, inside the slab. -/
theorem checkV_up_halts (m : GameMap) (w : ℤ) (ch : Character) (dt : ℚ)
    (hm : ∀ r c, m r c = decide (w ≤ r ∧ r < w + 4))
    (hv : ch.vel_y < 0) (hdt : 0 < dt)
    (hstart : w + 4 ≤ qfloor ch.pos_y)
    (hreach : qfloor (ch.pos_y + ch.vel_y * dt) ≤ w + 3)
    (hw0 : 0 ≤ w) (hw1 : w + 4 ≤ MAP_HEIGHT)
    (hx0 : 0 ≤ qfloor ch.pos_x) (hx1 : qfloor ch.pos_x < MAP_WIDTH) :
    ∃ y' : ℚ, checkVerticalCollision m ch.pos_x (ch.pos_y + ch.vel_y * dt) ch = some y' ∧
      (w : ℚ) + 1 ≤ y' ∧ y' ≤ (w : ℚ) + 4 ∧
      (moveVertical m dt ch).pos_y = y' ∧ (moveVertical m dt ch).vel_y = 0 := by
  set newY : ℚ := ch.pos_y + ch.vel_y * dt with hnewY
  set lo : ℤ := qfloor ch.pos_x with hlo
  set hi : ℤ := qfloor (ch.pos_x + (ch.width : ℚ) - 1) with hhi
  set cp : ℤ := checkPointsFor lo hi with hcp
  set S : ℤ := stepsFor (qabs (newY - ch.pos_y)) with hS
  have hray : raycastUp m ch ch.pos_x newY =
      (firstSome (fun step =>
        vScanRow m
          (qfloor (ch.pos_y + ((step : ℚ) / ((S : ℚ) - 1)) * (newY - ch.pos_y)))
          lo hi cp) S.toNat).map (fun row => (row : ℚ) + 1) := rfl
  have hδ : newY - ch.pos_y < 0 := by
    rw [hnewY]
    have := mul_neg_of_neg_of_pos hv hdt
    linarith
  obtain ⟨k, hkS, hka, hkb⟩ :=
    sample_window_neg ch.pos_y (newY - ch.pos_y) hδ (w + 3)
      (by rw [qfloor_eq] at hstart; omega)
      (by rw [qfloor_eq] at hreach
          have harg : ch.pos_y + (newY - ch.pos_y) = newY := by ring
          rw [harg]
          omega)
  rw [← hS] at hkS hka hkb
  have hkS' : k < S.toNat := by
    have h5 : 5 ≤ S := by rw [hS]; exact stepsFor_ge _
    omega
  set rowk : ℤ :=
    qfloor (ch.pos_y + ((k : ℚ) / ((S : ℚ) - 1)) * (newY - ch.pos_y)) with hrowk
  have hrowk_lo : w ≤ rowk := by
    rw [hrowk]
    omega
  have hrowk_hi : rowk < w + 4 := by
    rw [hrowk]
    omega
  have hhit : ((firstSome (fun step =>
      vScanRow m
        (qfloor (ch.pos_y + ((step : ℚ) / ((S : ℚ) - 1)) * (newY - ch.pos_y)))
        lo hi cp) S.toNat)).isSome = true := by
    apply firstSome_isSome _ _ k hkS'
    apply vScanRow_isSome m rowk lo hi cp (by rw [hcp]; exact checkPointsFor_ge _ _)
      hx0 hx1 (by omega) (by omega)
    rw [hm]
    simp only [decide_eq_true_eq]
    exact ⟨hrowk_lo, hrowk_hi⟩
  obtain ⟨row0, hrow0⟩ := Option.isSome_iff_exists.mp hhit
  have hrow0w : w ≤ row0 ∧ row0 < w + 4 := by
    have hsound := firstSome_sound (fun step =>
        vScanRow m
          (qfloor (ch.pos_y + ((step : ℚ) / ((S : ℚ) - 1)) * (newY - ch.pos_y)))
          lo hi cp)
      (fun v => w ≤ v ∧ v < w + 4) S.toNat ?_ row0 hrow0
    · exact hsound
    · intro j _ v hvj
      obtain ⟨hveq, c, hc⟩ := vScanRow_sound m _ lo hi cp v hvj
      rw [hm] at hc
      rw [hveq]
      simpa only [decide_eq_true_eq] using hc
  have hvne : ¬ (0 < ch.vel_y) := not_lt.mpr (le_of_lt hv)
  have hcheck : checkVerticalCollision m ch.pos_x newY ch = some ((row0 : ℚ) + 1) := by
    rw [checkVerticalCollision, if_neg hvne, if_pos hv, hray, hrow0]
    rfl
  refine ⟨(row0 : ℚ) + 1, hcheck, ?_, ?_, ?_, ?_⟩
  · have h1 : (w : ℚ) ≤ (row0 : ℚ) := by exact_mod_cast hrow0w.1
    linarith
  · have h1 : (row0 : ℚ) ≤ (w : ℚ) + 3 := by
      have h2 : (row0 : ℤ) ≤ w + 3 := by omega
      exact_mod_cast h2
    linarith
  · rw [moveVertical]
    rw [← hnewY, hcheck]
  · rw [moveVertical]
    rw [← hnewY, hcheck]

/-- Claim C1, counterexample.  The world wallMap1 contains a solid tile
column exactly one grid cell wide (column 17, all rows), standing in
the path of the character chTunnel: its leading right edge starts at
column 16 and the requested rightward displacement of 40 units
(velocity 400 for a 0.1 s tick) carries the edge to column 56, through
the tile.  checkHorizontalCollision reports no collision (the ray-march
samples straddle the one-cell column and the endpoint check only looks
at the destination), so the move step accepts the full displacement and
the resolved position ends up on the far side of the tile, refuting the
claim for tiles that are no thinner than one grid cell. -/
theorem C1_no_tunneling_counterexample :
    wallMap1 5 17 = true ∧
    chTunnel.pos_x + (chTunnel.width : ℚ) = 16 ∧
    checkHorizontalCollision wallMap1 (chTunnel.pos_x + chTunnel.vel_x * (1/10)) chTunnel.pos_y chTunnel = none ∧
    (moveHorizontal wallMap1 (1/10) chTunnel).pos_x = 40 ∧
    (17 : ℚ) + 1 < (moveHorizontal wallMap1 (1/10) chTunnel).pos_x := by
  refine ⟨?_, ?_, ?_, ?_, ?_⟩
  · with_unfolding_all decide
  · with_unfolding_all decide
  · with_unfolding_all decide
  · with_unfolding_all decide
  · with_unfolding_all decide

/-- Claim C1, amended.  The one-cell claim fails (see the
counterexample); the tight statement the solver does guarantee replaces
one grid cell by four grid cells: the ray-march samples consecutive
leading-edge cells at most four apart, so a solid column (respectively
slab) at least four cells wide standing in the swept path is always
hit, the entity is snapped with its leading edge inside the obstacle -
never on the far side - and the move step installs the snapped
position, zeroing the velocity component (and setting onGround for a
downward landing).  All four movement directions are covered. -/
theorem C1_no_tunneling_amended :
    (∀ (m : GameMap) (w : ℤ) (ch : Character) (dt : ℚ),
      (∀ r c, m r c = decide (w ≤ c ∧ c < w + 4)) → 0 < ch.vel_x → 0 < dt →
      qfloor ch.pos_x + ch.width < w →
      w ≤ qfloor (ch.pos_x + ch.vel_x * dt) + ch.width →
      0 ≤ w → w + 4 ≤ MAP_WIDTH →
      0 ≤ qfloor ch.pos_y → qfloor ch.pos_y < MAP_HEIGHT →
      ∃ x' : ℚ, checkHorizontalCollision m (ch.pos_x + ch.vel_x * dt) ch.pos_y ch = some x' ∧
        (w : ℚ) ≤ x' + (ch.width : ℚ) ∧ x' + (ch.width : ℚ) < (w : ℚ) + 4 ∧
        (moveHorizontal m dt ch).pos_x = x' ∧ (moveHorizontal m dt ch).vel_x = 0) ∧
    (∀ (m : GameMap) (w : ℤ) (ch : Character) (dt : ℚ),
      (∀ r c, m r c = decide (w ≤ c ∧ c < w + 4)) → ch.vel_x < 0 → 0 < dt →
      w + 4 ≤ qfloor ch.pos_x →
      qfloor (ch.pos_x + ch.vel_x * dt) ≤ w + 3 →
      0 ≤ w → w + 4 ≤ MAP_WIDTH →
      0 ≤ qfloor ch.pos_y → qfloor ch.pos_y < MAP_HEIGHT →
      ∃ x' : ℚ, checkHorizontalCollision m (ch.pos_x + ch.vel_x * dt) ch.pos_y ch = some x' ∧
        (w : ℚ) + 1 ≤ x' ∧ x' ≤ (w : ℚ) + 4 ∧
        (moveHorizontal m dt ch).pos_x = x' ∧ (moveHorizontal m dt ch).vel_x = 0) ∧
    (∀ (m : GameMap) (w : ℤ) (ch : Character) (dt : ℚ),
      (∀ r c, m r c = decide (w ≤ r ∧ r < w + 4)) → 0 < ch.vel_y → 0 < dt →
      qfloor ch.pos_y + ch.height < w →
      w ≤ qfloor (ch.pos_y + ch.vel_y * dt) + ch.height →
      0 ≤ w → w + 4 ≤ MAP_HEIGHT →
      0 ≤ qfloor ch.pos_x → qfloor ch.pos_x < MAP_WIDTH →
      ∃ y' : ℚ, checkVerticalCollision m ch.pos_x (ch.pos_y + ch.vel_y * dt) ch = some y' ∧
        (w : ℚ) ≤ y' + (ch.height : ℚ) ∧ y' + (ch.height : ℚ) < (w : ℚ) + 4 ∧
        (moveVertical m dt ch).pos_y = y' ∧ (moveVertical m dt ch).vel_y = 0 ∧
        (moveVertical m dt ch).onGround = true) ∧
    (∀ (m : GameMap) (w : ℤ) (ch : Character) (dt : ℚ),
      (∀ r c, m r c = decide (w ≤ r ∧ r < w + 4)) → ch.vel_y < 0 → 0 < dt →
      w + 4 ≤ qfloor ch.pos_y →
      qfloor (ch.pos_y + ch.vel_y * dt) ≤ w + 3 →
      0 ≤ w → w + 4 ≤ MAP_HEIGHT →
      0 ≤ qfloor ch.pos_x → qfloor ch.pos_x < MAP_WIDTH →
      ∃ y' : ℚ, checkVerticalCollision m ch.pos_x (ch.pos_y + ch.vel_y * dt) ch = some y' ∧
        (w : ℚ) + 1 ≤ y' ∧ y' ≤ (w : ℚ) + 4 ∧
        (moveVertical m dt ch).pos_y = y' ∧ (moveVertical m dt ch).vel_y = 0) :=
  ⟨checkH_right_halts, checkH_left_halts, checkV_down_halts, checkV_up_halts⟩

/-- Claim C1, amended: witness.  The amended theorem applied to four
concrete scenarios, one per movement direction: a four-cell wall at
columns 20 to 23 approached from the left at 400 units per second and
from the right at 770 units per second, and a four-cell slab at rows
200 to 203 approached from above at 1000 units per second and from
below at 170 units per second, each for a 0.1 second step. -/
theorem C1_no_tunneling_amended_witness :
    (∃ x' : ℚ, checkHorizontalCollision wallMap4R (chTunnel.pos_x + chTunnel.vel_x * (1/10)) chTunnel.pos_y chTunnel = some x' ∧
      ((20 : ℤ) : ℚ) ≤ x' + (chTunnel.width : ℚ) ∧ x' + (chTunnel.width : ℚ) < ((20 : ℤ) : ℚ) + 4 ∧
      (moveHorizontal wallMap4R (1/10) chTunnel).pos_x = x' ∧ (moveHorizontal wallMap4R (1/10) chTunnel).vel_x = 0) ∧
    (∃ x' : ℚ, checkHorizontalCollision wallMap4R (chLeftW.pos_x + chLeftW.vel_x * (1/10)) chLeftW.pos_y chLeftW = some x' ∧
      ((20 : ℤ) : ℚ) + 1 ≤ x' ∧ x' ≤ ((20 : ℤ) : ℚ) + 4 ∧
      (moveHorizontal wallMap4R (1/10) chLeftW).pos_x = x' ∧ (moveHorizontal wallMap4R (1/10) chLeftW).vel_x = 0) ∧
    (∃ y' : ℚ, checkVerticalCollision floorMap4 chFall.pos_x (chFall.pos_y + chFall.vel_y * (1/10)) chFall = some y' ∧
      ((200 : ℤ) : ℚ) ≤ y' + (chFall.height : ℚ) ∧ y' + (chFall.height : ℚ) < ((200 : ℤ) : ℚ) + 4 ∧
      (moveVertical floorMap4 (1/10) chFall).pos_y = y' ∧ (moveVertical floorMap4 (1/10) chFall).vel_y = 0 ∧
      (moveVertical floorMap4 (1/10) chFall).onGround = true) ∧
    (∃ y' : ℚ, checkVerticalCollision floorMap4 chUpW.pos_x (chUpW.pos_y + chUpW.vel_y * (1/10)) chUpW = some y' ∧
      ((200 : ℤ) : ℚ) + 1 ≤ y' ∧ y' ≤ ((200 : ℤ) : ℚ) + 4 ∧
      (moveVertical floorMap4 (1/10) chUpW).pos_y = y' ∧ (moveVertical floorMap4 (1/10) chUpW).vel_y = 0) := by
  refine ⟨?_, ?_, ?_, ?_⟩
  · exact C1_no_tunneling_amended.1 wallMap4R 20 chTunnel (1/10)
      (fun r c => by with_unfolding_all rfl)
      (by with_unfolding_all decide) (by with_unfolding_all decide)
      (by with_unfolding_all decide) (by with_unfolding_all decide)
      (by with_unfolding_all decide) (by with_unfolding_all decide)
      (by with_unfolding_all decide) (by with_unfolding_all decide)
  · exact C1_no_tunneling_amended.2.1 wallMap4R 20 chLeftW (1/10)
      (fun r c => by with_unfolding_all rfl)
      (by with_unfolding_all decide) (by with_unfolding_all decide)
      (by with_unfolding_all decide) (by with_unfolding_all decide)
      (by with_unfolding_all decide) (by with_unfolding_all decide)
      (by with_unfolding_all decide) (by with_unfolding_all decide)
  · exact C1_no_tunneling_amended.2.2.1 floorMap4 200 chFall (1/10)
      (fun r c => by with_unfolding_all rfl)
      (by with_unfolding_all decide) (by with_unfolding_all decide)
      (by with_unfolding_all decide) (by with_unfolding_all decide)
      (by with_unfolding_all decide) (by with_unfolding_all decide)
      (by with_unfolding_all decide) (by with_unfolding_all decide)
  · exact C1_no_tunneling_amended.2.2.2 floorMap4 200 chUpW (1/10)
      (fun r c => by with_unfolding_all rfl)
      (by with_unfolding_all decide) (by with_unfolding_all decide)
      (by with_unfolding_all decide) (by with_unfolding_all decide)
      (by with_unfolding_all decide) (by with_unfolding_all decide)
      (by with_unfolding_all decide) (by with_unfolding_all decide)

/-- Characterization of a server enemy tick: live enemy walking right
that reaches or passes its right bound (facing flips, x not clamped). -/
theorem updE_right_turn (e : Enemy) (hdef : e.defeated = false) (hface : e.facingRight = true)
    (hb : e.rightBound ≤ e.x + e.vel_x * (TICK_RATE / 1000)) :
    (updateEnemyServer (TICK_RATE / 1000) e).x = e.x + e.vel_x * (TICK_RATE / 1000) ∧
    (updateEnemyServer (TICK_RATE / 1000) e).facingRight = false ∧
    (updateEnemyServer (TICK_RATE / 1000) e).vel_x = e.vel_x ∧
    (updateEnemyServer (TICK_RATE / 1000) e).defeated = false ∧
    (updateEnemyServer (TICK_RATE / 1000) e).leftBound = e.leftBound ∧
    (updateEnemyServer (TICK_RATE / 1000) e).rightBound = e.rightBound ∧
    (updateEnemyServer (TICK_RATE / 1000) e).originalX = e.originalX ∧
    (updateEnemyServer (TICK_RATE / 1000) e).y = e.y := by
  simp only [updateEnemyServer, hdef, hface]
  rw [if_pos hb]
  split_ifs with hanim <;> simp_all

/-- Characterization of a server enemy tick: live enemy walking right
strictly inside its bounds (facing kept). -/
theorem updE_right_go (e : Enemy) (hdef : e.defeated = false) (hface : e.facingRight = true)
    (hb : ¬ (e.rightBound ≤ e.x + e.vel_x * (TICK_RATE / 1000))) :
    (updateEnemyServer (TICK_RATE / 1000) e).x = e.x + e.vel_x * (TICK_RATE / 1000) ∧
    (updateEnemyServer (TICK_RATE / 1000) e).facingRight = true ∧
    (updateEnemyServer (TICK_RATE / 1000) e).vel_x = e.vel_x ∧
    (updateEnemyServer (TICK_RATE / 1000) e).defeated = false ∧
    (updateEnemyServer (TICK_RATE / 1000) e).leftBound = e.leftBound ∧
    (updateEnemyServer (TICK_RATE / 1000) e).rightBound = e.rightBound ∧
    (updateEnemyServer (TICK_RATE / 1000) e).originalX = e.originalX ∧
    (updateEnemyServer (TICK_RATE / 1000) e).y = e.y := by
  simp only [updateEnemyServer, hdef, hface]
  rw [if_neg hb]
  split_ifs with hanim <;> simp_all

/-- Characterization of a server enemy tick: live enemy walking left
that reaches or passes its left bound (facing flips). -/
theorem updE_left_turn (e : Enemy) (hdef : e.defeated = false) (hface : e.facingRight = false)
    (hb : e.x - e.vel_x * (TICK_RATE / 1000) ≤ e.leftBound) :
    (updateEnemyServer (TICK_RATE / 1000) e).x = e.x - e.vel_x * (TICK_RATE / 1000) ∧
    (updateEnemyServer (TICK_RATE / 1000) e).facingRight = true ∧
    (updateEnemyServer (TICK_RATE / 1000) e).vel_x = e.vel_x ∧
    (updateEnemyServer (TICK_RATE / 1000) e).defeated = false ∧
    (updateEnemyServer (TICK_RATE / 1000) e).leftBound = e.leftBound ∧
    (updateEnemyServer (TICK_RATE / 1000) e).rightBound = e.rightBound ∧
    (updateEnemyServer (TICK_RATE / 1000) e).originalX = e.originalX ∧
    (updateEnemyServer (TICK_RATE / 1000) e).y = e.y := by
  simp only [updateEnemyServer, hdef, hface]
  rw [if_pos hb]
  split_ifs with hanim <;> simp_all

/-- Characterization of a server enemy tick: live enemy walking left
strictly inside its bounds (facing kept). -/
theorem updE_left_go (e : Enemy) (hdef : e.defeated = false) (hface : e.facingRight = false)
    (hb : ¬ (e.x - e.vel_x * (TICK_RATE / 1000) ≤ e.leftBound)) :
    (updateEnemyServer (TICK_RATE / 1000) e).x = e.x - e.vel_x * (TICK_RATE / 1000) ∧
    (updateEnemyServer (TICK_RATE / 1000) e).facingRight = false ∧
    (updateEnemyServer (TICK_RATE / 1000) e).vel_x = e.vel_x ∧
    (updateEnemyServer (TICK_RATE / 1000) e).defeated = false ∧
    (updateEnemyServer (TICK_RATE / 1000) e).leftBound = e.leftBound ∧
    (updateEnemyServer (TICK_RATE / 1000) e).rightBound = e.rightBound ∧
    (updateEnemyServer (TICK_RATE / 1000) e).originalX = e.originalX ∧
    (updateEnemyServer (TICK_RATE / 1000) e).y = e.y := by
  simp only [updateEnemyServer, hdef, hface]
  rw [if_neg hb]
  split_ifs with hanim <;> simp_all

/-- Characterization of a server enemy tick: defeated enemy whose timer
runs out this tick (respawn at the original position with velocity 50). -/
theorem updE_respawn (e : Enemy) (hdef : e.defeated = true)
    (ht : e.respawnTimer - TICK_RATE / 1000 ≤ 0) :
    (updateEnemyServer (TICK_RATE / 1000) e).x = e.originalX ∧
    (updateEnemyServer (TICK_RATE / 1000) e).y = e.originalY ∧
    (updateEnemyServer (TICK_RATE / 1000) e).defeated = false ∧
    (updateEnemyServer (TICK_RATE / 1000) e).vel_x = 50 ∧
    (updateEnemyServer (TICK_RATE / 1000) e).facingRight = e.facingRight ∧
    (updateEnemyServer (TICK_RATE / 1000) e).leftBound = e.leftBound ∧
    (updateEnemyServer (TICK_RATE / 1000) e).rightBound = e.rightBound ∧
    (updateEnemyServer (TICK_RATE / 1000) e).originalX = e.originalX := by
  simp only [updateEnemyServer, hdef]
  rw [if_pos ht]
  simp

/-- Characterization of a server enemy tick: defeated enemy whose timer
has not yet run out (everything but the timer is untouched). -/
theorem updE_countdown (e : Enemy) (hdef : e.defeated = true)
    (ht : ¬ (e.respawnTimer - TICK_RATE / 1000 ≤ 0)) :
    (updateEnemyServer (TICK_RATE / 1000) e).x = e.x ∧
    (updateEnemyServer (TICK_RATE / 1000) e).y = e.y ∧
    (updateEnemyServer (TICK_RATE / 1000) e).defeated = true ∧
    (updateEnemyServer (TICK_RATE / 1000) e).vel_x = e.vel_x ∧
    (updateEnemyServer (TICK_RATE / 1000) e).facingRight = e.facingRight ∧
    (updateEnemyServer (TICK_RATE / 1000) e).leftBound = e.leftBound ∧
    (updateEnemyServer (TICK_RATE / 1000) e).rightBound = e.rightBound ∧
    (updateEnemyServer (TICK_RATE / 1000) e).originalX = e.originalX ∧
    (updateEnemyServer (TICK_RATE / 1000) e).respawnTimer = e.respawnTimer - TICK_RATE / 1000 := by
  simp only [updateEnemyServer, hdef]
  rw [if_neg ht]
  simp

/-- HalfStep is closed under adding half. -/
theorem halfStep_add_half {q : ℚ} (h : HalfStep q) : HalfStep (q + 1/2) := by
  obtain ⟨k, hk⟩ := h
  exact ⟨k + 1, by push_cast; linarith⟩

/-- HalfStep is closed under subtracting half. -/
theorem halfStep_sub_half {q : ℚ} (h : HalfStep q) : HalfStep (q - 1/2) := by
  obtain ⟨k, hk⟩ := h
  exact ⟨k - 1, by push_cast; linarith⟩

/-- On the half-unit lattice, strictly below means at least half below. -/
theorem halfStep_gap {x lB rB : ℚ} (hx : HalfStep (x - lB)) (hb : HalfStep (rB - lB))
    (hlt : x < rB) : x ≤ rB - 1/2 := by
  obtain ⟨a, ha⟩ := hx
  obtain ⟨b, hb'⟩ := hb
  have hab : (rB - x) * 2 = ((b - a : ℤ) : ℚ) := by push_cast; linarith [ha, hb']
  have hpos : (0 : ℚ) < ((b - a : ℤ) : ℚ) := by rw [← hab]; linarith
  have hint : (0 : ℤ) < b - a := by exact_mod_cast hpos
  have hone : (1 : ℚ) ≤ ((b - a : ℤ) : ℚ) := by exact_mod_cast hint
  linarith [hab ▸ hone]

/-- On the half-unit lattice, strictly above means at least half above. -/
theorem halfStep_gap' {x lB : ℚ} (hx : HalfStep (x - lB)) (hlt : lB < x) : lB + 1/2 ≤ x := by
  obtain ⟨a, ha⟩ := hx
  have hpos : (0 : ℚ) < ((a : ℤ) : ℚ) := by rw [← ha]; linarith
  have hint : (0 : ℤ) < a := by exact_mod_cast hpos
  have hone : (1 : ℚ) ≤ ((a : ℤ) : ℚ) := by exact_mod_cast hint
  linarith [ha ▸ hone]

/-- The reachability invariant is preserved by every authoritative
enemy tick. -/
theorem enemyInv_step (e : Enemy) (h : EnemyInv e) :
    EnemyInv (updateEnemyServer (TICK_RATE / 1000) e) := by
  obtain ⟨hvel, hrl, hox, hxl, ho1, ho2, hl, hr, hfr, hfl⟩ := h
  have hstep : e.vel_x * (TICK_RATE / 1000) = 1/2 := by
    rw [hvel, TICK_RATE]
    norm_num
  cases hdef : e.defeated with
  | true =>
    by_cases ht : e.respawnTimer - TICK_RATE / 1000 ≤ 0
    · obtain ⟨hx, hy, hd, hv, hf, hlb, hrb, hoxx⟩ := updE_respawn e hdef ht
      refine ⟨hv, ?_, ?_, ?_, ?_, ?_, ?_, ?_, ?_, ?_⟩
      · rw [hrb, hlb]
        exact hrl
      · rw [hoxx, hlb]
        exact hox
      · rw [hx, hlb]
        exact hox
      · rw [hoxx, hlb]
        exact ho1
      · rw [hoxx, hrb]
        exact ho2
      · rw [hx, hlb]
        linarith
      · rw [hx, hrb]
        linarith
      · intro hface
        rw [hx, hrb]
        exact ho2
      · intro hface
        rw [hx, hlb]
        exact ho1
    · obtain ⟨hx, hy, hd, hv, hf, hlb, hrb, hoxx, hti⟩ := updE_countdown e hdef ht
      exact ⟨by rw [hv]; exact hvel, by rw [hrb, hlb]; exact hrl, by rw [hoxx, hlb]; exact hox,
        by rw [hx, hlb]; exact hxl, by rw [hoxx, hlb]; exact ho1, by rw [hoxx, hrb]; exact ho2,
        by rw [hx, hlb]; exact hl, by rw [hx, hrb]; exact hr,
        by rw [hf, hx, hrb]; exact hfr, by rw [hf, hx, hlb]; exact hfl⟩
  | false =>
    cases hface : e.facingRight with
    | true =>
      have hx' : e.x + e.vel_x * (TICK_RATE / 1000) = e.x + 1/2 := by rw [hstep]
      have hxr : e.x ≤ e.rightBound - 1/2 := hfr hface
      by_cases hb : e.rightBound ≤ e.x + e.vel_x * (TICK_RATE / 1000)
      · obtain ⟨hx, hf, hv, hd, hlb, hrb, hoxx, hy⟩ := updE_right_turn e hdef hface hb
        rw [hx'] at hb hx
        have hxeq : e.x + 1/2 = e.rightBound := by linarith
        refine ⟨by rw [hv]; exact hvel, by rw [hrb, hlb]; exact hrl, by rw [hoxx, hlb]; exact hox,
          ?_, by rw [hoxx, hlb]; exact ho1, by rw [hoxx, hrb]; exact ho2, ?_, ?_, ?_, ?_⟩
        · rw [hx, hlb, hxeq]
          exact hrl
        · rw [hx, hlb]
          linarith
        · rw [hx, hrb]
          linarith
        · intro hcon
          rw [hf] at hcon
          exact absurd hcon (by simp)
        · intro hcon
          rw [hx, hlb, hxeq]
          linarith [ho1, ho2]
      · obtain ⟨hx, hf, hv, hd, hlb, hrb, hoxx, hy⟩ := updE_right_go e hdef hface hb
        rw [hx'] at hb hx
        push_neg at hb
        have hxl2 : HalfStep (e.x + 1/2 - e.leftBound) := by
          have harg : e.x + 1/2 - e.leftBound = e.x - e.leftBound + 1/2 := by ring
          rw [harg]
          exact halfStep_add_half hxl
        have hfr' : e.x + 1/2 ≤ e.rightBound - 1/2 := halfStep_gap hxl2 hrl hb
        refine ⟨by rw [hv]; exact hvel, by rw [hrb, hlb]; exact hrl, by rw [hoxx, hlb]; exact hox,
          ?_, by rw [hoxx, hlb]; exact ho1, by rw [hoxx, hrb]; exact ho2, ?_, ?_, ?_, ?_⟩
        · rw [hx, hlb]
          have : e.x + 1/2 - e.leftBound = e.x - e.leftBound + 1/2 := by ring
          rw [this]
          exact halfStep_add_half hxl
        · rw [hx, hlb]
          linarith
        · rw [hx, hrb]
          linarith
        · intro hcon
          rw [hx, hrb]
          exact hfr'
        · intro hcon
          rw [hf] at hcon
          exact absurd hcon (by simp)
    | false =>
      have hx' : e.x - e.vel_x * (TICK_RATE / 1000) = e.x - 1/2 := by rw [hstep]
      have hxr : e.leftBound + 1/2 ≤ e.x := hfl hface
      by_cases hb : e.x - e.vel_x * (TICK_RATE / 1000) ≤ e.leftBound
      · obtain ⟨hx, hf, hv, hd, hlb, hrb, hoxx, hy⟩ := updE_left_turn e hdef hface hb
        rw [hx'] at hb hx
        have hxeq : e.x - 1/2 = e.leftBound := by linarith
        refine ⟨by rw [hv]; exact hvel, by rw [hrb, hlb]; exact hrl, by rw [hoxx, hlb]; exact hox,
          ?_, by rw [hoxx, hlb]; exact ho1, by rw [hoxx, hrb]; exact ho2, ?_, ?_, ?_, ?_⟩
        · rw [hx, hlb, hxeq]
          exact ⟨0, by push_cast; ring⟩
        · rw [hx, hlb]
          linarith
        · rw [hx, hrb]
          linarith
        · intro hcon
          rw [hx, hrb, hxeq]
          linarith [ho1, ho2]
        · intro hcon
          rw [hf] at hcon
          exact absurd hcon (by simp)
      · obtain ⟨hx, hf, hv, hd, hlb, hrb, hoxx, hy⟩ := updE_left_go e hdef hface hb
        rw [hx'] at hb hx
        push_neg at hb
        have hfl' : e.leftBound + 1/2 ≤ e.x - 1/2 := by
          have := halfStep_gap' (halfStep_sub_half hxl) (by linarith)
          have harg : e.x - 1/2 - e.leftBound = e.x - e.leftBound - 1/2 := by ring
          have h2 : HalfStep (e.x - 1/2 - e.leftBound) := by
            rw [harg]
            exact halfStep_sub_half hxl
          have h3 := halfStep_gap' h2 (by linarith)
          linarith
        refine ⟨by rw [hv]; exact hvel, by rw [hrb, hlb]; exact hrl, by rw [hoxx, hlb]; exact hox,
          ?_, by rw [hoxx, hlb]; exact ho1, by rw [hoxx, hrb]; exact ho2, ?_, ?_, ?_, ?_⟩
        · rw [hx, hlb]
          have : e.x - 1/2 - e.leftBound = e.x - e.leftBound - 1/2 := by ring
          rw [this]
          exact halfStep_sub_half hxl
        · rw [hx, hlb]
          linarith
        · rw [hx, hrb]
          linarith
        · intro hcon
          rw [hf] at hcon
          exact absurd hcon (by simp)
        · intro hcon
          rw [hx, hlb]
          exact hfl'

/-- The reachability invariant is preserved by any number of
authoritative enemy ticks. -/
theorem enemyInv_ticks : ∀ (n : ℕ) (e : Enemy), EnemyInv e → EnemyInv (enemyTicks n e)
  | 0, _, h => h
  | n + 1, e, h => enemyInv_ticks n _ (enemyInv_step e h)

/-- Every enemy built by mkEnemy whose start position sits strictly
inside its bounds on the half-unit lattice satisfies the invariant. -/
theorem enemyInv_mk (x y lB rB : ℚ) (h1 : lB + 1/2 ≤ x) (h2 : x ≤ rB - 1/2)
    (h3 : HalfStep (rB - lB)) (h4 : HalfStep (x - lB)) : EnemyInv (mkEnemy x y lB rB) := by
  refine ⟨rfl, h3, h4, h4, h1, h2, by show lB ≤ x; linarith, by show x ≤ rB; linarith, ?_, ?_⟩
  · intro _
    exact h2
  · intro hcon
    exact absurd hcon (by simp [mkEnemy])

/-- Claim C3, counterexample.  The server updateEnemies clamps nothing:
an enemy 0.1 units short of its right bound (bounds 0 to 10) is carried
0.4 units past the bound by one authoritative tick, violating
containment as universally stated; and for the actual slime enemy in
the reachable state half a step short of its bound, the tick reverses
the facing flag exactly at the bound but leaves vel_x at +50 - the
stored velocity sign is never reversed by the server (direction lives
in the facing flag), contradicting the reverses-velocity-sign clause. -/
theorem C3_enemy_containment_counterexample :
    enemyOvershoot.leftBound ≤ enemyOvershoot.x ∧
    enemyOvershoot.x ≤ enemyOvershoot.rightBound ∧
    enemyOvershoot.defeated = false ∧
    enemyOvershoot.rightBound < (updateEnemyServer (TICK_RATE / 1000) enemyOvershoot).x ∧
    enemyAtBound.defeated = false ∧
    (updateEnemyServer (TICK_RATE / 1000) enemyAtBound).x = enemyAtBound.rightBound ∧
    (updateEnemyServer (TICK_RATE / 1000) enemyAtBound).facingRight = false ∧
    (updateEnemyServer (TICK_RATE / 1000) enemyAtBound).vel_x = 50 := by
  refine ⟨?_, ?_, ?_, ?_, ?_, ?_, ?_, ?_⟩
  · with_unfolding_all decide
  · with_unfolding_all decide
  · with_unfolding_all decide
  · with_unfolding_all decide
  · with_unfolding_all decide
  · with_unfolding_all decide
  · with_unfolding_all decide
  · with_unfolding_all decide

/-- Claim C3, amended.  Containment holds for every enemy state
satisfying the reachability invariant EnemyInv - velocity 50, position
inside the bounds on the half-unit lattice, at least half a unit short
of the bound being walked toward - which all three enemies the server
creates satisfy, and which every authoritative tick preserves: after
any number of ticks the x-coordinate stays within leftBound and
rightBound inclusive.  At the bound the enemy reverses its facing flag
exactly when x lands on the bound; its stored vel_x is unchanged (the
server encodes direction in the facing flag and never flips the sign of
vel_x, and needs no clamping on the lattice). -/
theorem C3_enemy_containment_amended :
    (∀ (e : Enemy) (n : ℕ), EnemyInv e →
      (enemyTicks n e).leftBound ≤ (enemyTicks n e).x ∧
      (enemyTicks n e).x ≤ (enemyTicks n e).rightBound) ∧
    (∀ e ∈ initialEnemies, EnemyInv e) ∧
    (∀ e : Enemy, EnemyInv e → e.defeated = false →
      (e.facingRight = true →
        (updateEnemyServer (TICK_RATE / 1000) e).x = e.x + 1/2 ∧
        (updateEnemyServer (TICK_RATE / 1000) e).vel_x = e.vel_x ∧
        ((updateEnemyServer (TICK_RATE / 1000) e).facingRight = false ↔
          (updateEnemyServer (TICK_RATE / 1000) e).x = e.rightBound)) ∧
      (e.facingRight = false →
        (updateEnemyServer (TICK_RATE / 1000) e).x = e.x - 1/2 ∧
        (updateEnemyServer (TICK_RATE / 1000) e).vel_x = e.vel_x ∧
        ((updateEnemyServer (TICK_RATE / 1000) e).facingRight = true ↔
          (updateEnemyServer (TICK_RATE / 1000) e).x = e.leftBound))) := by
  refine ⟨?_, ?_, ?_⟩
  · intro e n h
    obtain ⟨-, -, -, -, -, -, hl, hr, -, -⟩ := enemyInv_ticks n e h
    exact ⟨hl, hr⟩
  · intro e he
    simp only [initialEnemies, List.mem_cons, List.mem_singleton, List.not_mem_nil, or_false] at he
    rcases he with h | h | h
    · rw [h, slimeE]
      exact enemyInv_mk 200 222 150 250 (by norm_num) (by norm_num)
        ⟨200, by norm_num⟩ ⟨100, by norm_num⟩
    · rw [h, robotE]
      exact enemyInv_mk 400 222 380 480 (by norm_num) (by norm_num)
        ⟨200, by norm_num⟩ ⟨40, by norm_num⟩
    · rw [h, batE]
      exact enemyInv_mk 650 132 600 700 (by norm_num) (by norm_num)
        ⟨200, by norm_num⟩ ⟨100, by norm_num⟩
  · intro e h hdef
    obtain ⟨hvel, hrl, hox, hxl, ho1, ho2, hl, hr, hfr, hfl⟩ := h
    have hstep : e.vel_x * (TICK_RATE / 1000) = 1/2 := by
      rw [hvel, TICK_RATE]
      norm_num
    constructor
    · intro hface
      have hx' : e.x + e.vel_x * (TICK_RATE / 1000) = e.x + 1/2 := by rw [hstep]
      have hxr : e.x ≤ e.rightBound - 1/2 := hfr hface
      by_cases hb : e.rightBound ≤ e.x + e.vel_x * (TICK_RATE / 1000)
      · obtain ⟨hx, hf, hv, -, -, -, -, -⟩ := updE_right_turn e hdef hface hb
        rw [hx'] at hb hx
        refine ⟨hx, hv, ?_⟩
        rw [hf, hx]
        constructor
        · intro _
          linarith
        · intro _
          rfl
      · obtain ⟨hx, hf, hv, -, -, -, -, -⟩ := updE_right_go e hdef hface hb
        rw [hx'] at hb hx
        push_neg at hb
        refine ⟨hx, hv, ?_⟩
        rw [hf, hx]
        constructor
        · intro hcon
          exact absurd hcon (by simp)
        · intro hcon
          linarith
    · intro hface
      have hx' : e.x - e.vel_x * (TICK_RATE / 1000) = e.x - 1/2 := by rw [hstep]
      have hxr : e.leftBound + 1/2 ≤ e.x := hfl hface
      by_cases hb : e.x - e.vel_x * (TICK_RATE / 1000) ≤ e.leftBound
      · obtain ⟨hx, hf, hv, -, -, -, -, -⟩ := updE_left_turn e hdef hface hb
        rw [hx'] at hb hx
        refine ⟨hx, hv, ?_⟩
        rw [hf, hx]
        constructor
        · intro _
          linarith
        · intro _
          rfl
      · obtain ⟨hx, hf, hv, -, -, -, -, -⟩ := updE_left_go e hdef hface hb
        rw [hx'] at hb hx
        push_neg at hb
        refine ⟨hx, hv, ?_⟩
        rw [hf, hx]
        constructor
        · intro hcon
          exact absurd hcon (by simp)
        · intro hcon
          linarith

/-- Claim C3, amended: witness.  Containment applied to the slime enemy
for three authoritative ticks, whose invariant hypothesis is discharged
by the concrete lattice facts of its spawn state. -/
theorem C3_enemy_containment_amended_witness :
    (enemyTicks 3 slimeE).leftBound ≤ (enemyTicks 3 slimeE).x ∧
    (enemyTicks 3 slimeE).x ≤ (enemyTicks 3 slimeE).rightBound :=
  C3_enemy_containment_amended.1 slimeE 3
    (enemyInv_mk 200 222 150 250 (by norm_num) (by norm_num)
      ⟨200, by norm_num⟩ ⟨100, by norm_num⟩)

/-- Claim C7.  A defeated enemy whose respawn timer elapses during an
authoritative tick (timer at most one tick of 0.01 s from zero, as the
code triggers at timer minus dt at most 0) reappears exactly at its
original position with defeated false and velocity reset to 50; a
defeated enemy whose timer has not yet elapsed merely counts down,
keeping its position and defeated flag. -/
theorem C7_respawn_fidelity (e : Enemy) (hdef : e.defeated = true) :
    (e.respawnTimer ≤ TICK_RATE / 1000 →
      (updateEnemyServer (TICK_RATE / 1000) e).defeated = false ∧
      (updateEnemyServer (TICK_RATE / 1000) e).x = e.originalX ∧
      (updateEnemyServer (TICK_RATE / 1000) e).y = e.originalY ∧
      (updateEnemyServer (TICK_RATE / 1000) e).vel_x = 50) ∧
    (TICK_RATE / 1000 < e.respawnTimer →
      (updateEnemyServer (TICK_RATE / 1000) e).defeated = true ∧
      (updateEnemyServer (TICK_RATE / 1000) e).x = e.x ∧
      (updateEnemyServer (TICK_RATE / 1000) e).y = e.y ∧
      (updateEnemyServer (TICK_RATE / 1000) e).respawnTimer = e.respawnTimer - TICK_RATE / 1000) := by
  constructor
  · intro ht
    obtain ⟨hx, hy, hd, hv, -, -, -, -⟩ := updE_respawn e hdef (by linarith)
    exact ⟨hd, hx, hy, hv⟩
  · intro ht
    obtain ⟨hx, hy, hd, -, -, -, -, -, hti⟩ := updE_countdown e hdef (by push_neg; linarith)
    exact ⟨hd, hx, hy, hti⟩

/-- Claim C7: witness.  The defeated slime with exactly one tick left on
its timer respawns at its original position on the next tick. -/
theorem C7_respawn_fidelity_witness :
    (updateEnemyServer (TICK_RATE / 1000) enemyDefeatedE).defeated = false ∧
    (updateEnemyServer (TICK_RATE / 1000) enemyDefeatedE).x = enemyDefeatedE.originalX ∧
    (updateEnemyServer (TICK_RATE / 1000) enemyDefeatedE).y = enemyDefeatedE.originalY ∧
    (updateEnemyServer (TICK_RATE / 1000) enemyDefeatedE).vel_x = 50 :=
  (C7_respawn_fidelity enemyDefeatedE rfl).1 (by with_unfolding_all decide)

/-- Claim C4, counterexample.  The claim requires a stomp at horizontal
overlap of at least 4 px on both sides; the code uses strict
inequalities, so a falling player overlapping the enemy by exactly 4
units (right player edge at 104, enemy left edge at 100, all other
stomp conditions satisfied) does not trigger the stomp: the enemy stays
undefeated and the interaction is a no-op. -/
theorem C4_stomp_counterexample :
    eStomp.defeated = false ∧
    0 < pEdge.vel_y ∧
    pEdge.pos_y + (pEdge.height : ℚ) - 2 ≤ eStomp.y ∧
    eStomp.y ≤ pEdge.pos_y + (pEdge.height : ℚ) ∧
    (pEdge.pos_x + (pEdge.width : ℚ)) - eStomp.x = 4 ∧
    (eStomp.x + eStomp.width) - pEdge.pos_x = 28 ∧
    interactPlayerEnemy (fun _ _ => false) pEdge eStomp = (pEdge, eStomp) ∧
    (interactPlayerEnemy (fun _ _ => false) pEdge eStomp).2.defeated = false := by
  refine ⟨?_, ?_, ?_, ?_, ?_, ?_, ?_, ?_⟩
  · with_unfolding_all decide
  · with_unfolding_all decide
  · with_unfolding_all decide
  · with_unfolding_all decide
  · with_unfolding_all decide
  · with_unfolding_all decide
  · with_unfolding_all decide
  · with_unfolding_all decide

/-- Claim C4, amended.  For every player and non-defeated enemy, if the
player is falling with its feet within 2 px of the enemy top edge and
the horizontal overlap is strictly more than 4 px on both sides (the
code tests pos_x + 4 < enemy right edge and enemy left edge < player
right edge - 4 with strict inequalities), then the interaction sets the
enemy defeated with respawnTimer 5 and the player vertical velocity
becomes jumpSpeed times 0.7 = -245, for any pixel-mask fallback test
(the stomp branch precedes it). -/
theorem C4_stomp_amended (pixelHit : Character → Enemy → Bool) (p : Character) (e : Enemy)
    (hdef : e.defeated = false) (hfall : 0 < p.vel_y)
    (hfeet : p.pos_y + (p.height : ℚ) - 2 ≤ e.y) (hbot : e.y ≤ p.pos_y + (p.height : ℚ))
    (hov1 : p.pos_x + 4 < e.x + e.width) (hov2 : e.x < p.pos_x + (p.width : ℚ) - 4) :
    (interactPlayerEnemy pixelHit p e).2.defeated = true ∧
    (interactPlayerEnemy pixelHit p e).2.respawnTimer = 5 ∧
    (interactPlayerEnemy pixelHit p e).1.vel_y = jumpSpeed * (7/10) ∧
    (interactPlayerEnemy pixelHit p e).1.vel_y = -245 := by
  have hcond : 0 < p.vel_y ∧ p.pos_y + (p.height : ℚ) - 2 ≤ e.y ∧
      e.y ≤ p.pos_y + (p.height : ℚ) ∧
      p.pos_x + 4 < e.x + e.width ∧ e.x < p.pos_x + (p.width : ℚ) - 4 :=
    ⟨hfall, hfeet, hbot, hov1, hov2⟩
  simp only [interactPlayerEnemy, hdef]
  rw [if_pos hcond]
  refine ⟨rfl, rfl, rfl, ?_⟩
  show jumpSpeed * (7/10) = -245
  rw [jumpSpeed]
  norm_num

/-- Claim C4, amended: witness.  The amended stomp applied to a player
falling onto the test enemy with ample overlap. -/
theorem C4_stomp_amended_witness :
    (interactPlayerEnemy (fun _ _ => false) pStomp eStomp).2.defeated = true ∧
    (interactPlayerEnemy (fun _ _ => false) pStomp eStomp).2.respawnTimer = 5 ∧
    (interactPlayerEnemy (fun _ _ => false) pStomp eStomp).1.vel_y = jumpSpeed * (7/10) ∧
    (interactPlayerEnemy (fun _ _ => false) pStomp eStomp).1.vel_y = -245 :=
  C4_stomp_amended (fun _ _ => false) pStomp eStomp
    (by with_unfolding_all decide) (by with_unfolding_all decide)
    (by with_unfolding_all decide) (by with_unfolding_all decide)
    (by with_unfolding_all decide) (by with_unfolding_all decide)

/-- Entry description of setCollected: the chosen index gets its flag
set, every other entry is untouched. -/
theorem setCollected_get : ∀ (cs : List Collectible) (n j : ℕ),
    (setCollected cs n).get? j =
      if j = n then (cs.get? j).map (fun c => { c with collected := true }) else cs.get? j := by
  intro cs
  induction cs with
  | nil =>
    intro n j
    rw [setCollected]
    cases j <;> simp
  | cons c rest ih =>
    intro n j
    cases n with
    | zero =>
      cases j with
      | zero => simp [setCollected]
      | succ j => simp [setCollected]
    | succ n =>
      cases j with
      | zero => simp [setCollected]
      | succ j =>
        simp only [setCollected, List.get?]
        rw [ih n j]
        by_cases hj : j = n
        · rw [if_pos hj, if_pos (by omega)]
        · rw [if_neg hj, if_neg (by omega)]

/-- setCollected preserves the list length. -/
theorem setCollected_length : ∀ (cs : List Collectible) (n : ℕ),
    (setCollected cs n).length = cs.length := by
  intro cs
  induction cs with
  | nil => intro n; rw [setCollected]
  | cons c rest ih =>
    intro n
    cases n with
    | zero => simp [setCollected]
    | succ n => simp [setCollected, ih n]

/-- setCollected is idempotent. -/
theorem setCollected_idem : ∀ (cs : List Collectible) (n : ℕ),
    setCollected (setCollected cs n) n = setCollected cs n := by
  intro cs
  induction cs with
  | nil => intro n; rw [setCollected, setCollected]
  | cons c rest ih =>
    intro n
    cases n with
    | zero => simp [setCollected]
    | succ n => simp [setCollected, ih n]

/-- Entry description of setDefeated. -/
theorem setDefeated_get : ∀ (es : List Enemy) (n j : ℕ),
    (setDefeated es n).get? j =
      if j = n then (es.get? j).map (fun e => { e with defeated := true }) else es.get? j := by
  intro es
  induction es with
  | nil =>
    intro n j
    rw [setDefeated]
    cases j <;> simp
  | cons e rest ih =>
    intro n j
    cases n with
    | zero =>
      cases j with
      | zero => simp [setDefeated]
      | succ j => simp [setDefeated]
    | succ n =>
      cases j with
      | zero => simp [setDefeated]
      | succ j =>
        simp only [setDefeated, List.get?]
        rw [ih n j]
        by_cases hj : j = n
        · rw [if_pos hj, if_pos (by omega)]
        · rw [if_neg hj, if_neg (by omega)]

/-- One pickup pass leaves a collectible alone or flips an uncollected
overlapping one to collected. -/
theorem pickupStep_cases (p : Character) (c : Collectible) :
    pickupStep p c = c ∨
    (c.collected = false ∧ pickupStep p c = { c with collected := true }) := by
  by_cases h : c.collected = false ∧
      checkRectCollision p.pos_x p.pos_y (p.width : ℚ) (p.height : ℚ) c.x c.y c.width c.height = true
  · right
    exact ⟨h.1, by rw [pickupStep, if_pos h]⟩
  · left
    rw [pickupStep, if_neg h]

/-- One pickup pass is idempotent on a single collectible. -/
theorem pickupStep_idem (p : Character) (c : Collectible) :
    pickupStep p (pickupStep p c) = pickupStep p c := by
  rcases pickupStep_cases p c with hcase | ⟨hcol, hcase⟩
  · rw [hcase]
    exact hcase
  · rw [hcase]
    rw [pickupStep, if_neg (by simp)]

/-- Claim C8.  Collecting a collectible twice is a no-op: a repeated
collectCoin message leaves the array exactly as after the first, a
repeated tick-time pickup pass leaves the array exactly as after the
first, and in either mechanism an entry changes only by flipping a
previously-uncollected flag to collected (a collected entry can never
change again). -/
theorem C8_idempotent_collection :
    (∀ (idx : ℤ) (cs : List Collectible),
      handleCollectCoin idx (handleCollectCoin idx cs) = handleCollectCoin idx cs) ∧
    (∀ (p : Character) (cs : List Collectible),
      collectiblesPickup p (collectiblesPickup p cs) = collectiblesPickup p cs) ∧
    (∀ (p : Character) (c : Collectible),
      pickupStep p c = c ∨
      (c.collected = false ∧ pickupStep p c = { c with collected := true })) ∧
    (∀ (idx : ℤ) (cs : List Collectible) (j : ℕ),
      (handleCollectCoin idx cs).get? j = cs.get? j ∨
      ∃ c, cs.get? j = some c ∧ c.collected = false ∧
        (handleCollectCoin idx cs).get? j = some { c with collected := true }) := by
  refine ⟨?_, ?_, pickupStep_cases, ?_⟩
  · intro idx cs
    by_cases h : 0 ≤ idx ∧ idx < ((cs.length : ℤ))
    · have h1 : handleCollectCoin idx cs = setCollected cs idx.toNat := by
        rw [handleCollectCoin, if_pos h]
      rw [h1]
      have h2 : 0 ≤ idx ∧ idx < (((setCollected cs idx.toNat).length : ℤ)) := by
        rw [setCollected_length]
        exact h
      rw [handleCollectCoin, if_pos h2, setCollected_idem]
    · have h1 : handleCollectCoin idx cs = cs := by
        rw [handleCollectCoin, if_neg h]
      rw [h1, handleCollectCoin, if_neg h]
  · intro p cs
    simp only [collectiblesPickup, List.map_map]
    apply List.map_congr_left
    intro c _
    show pickupStep p (pickupStep p c) = pickupStep p c
    exact pickupStep_idem p c
  · intro idx cs j
    rw [handleCollectCoin]
    by_cases h : 0 ≤ idx ∧ idx < ((cs.length : ℤ))
    · rw [if_pos h, setCollected_get]
      by_cases hj : j = idx.toNat
      · rw [if_pos hj]
        cases hc : cs.get? j with
        | none =>
          left
          rfl
        | some c =>
          cases hcol : c.collected with
          | false =>
            right
            exact ⟨c, rfl, hcol, by simp⟩
          | true =>
            left
            have hcc : ({ c with collected := true } : Collectible) = c := by
              cases c
              simp_all
            show some { c with collected := true } = some c
            rw [hcc]
      · rw [if_neg hj]
        left
        rfl
    · rw [if_neg h]
      left
      rfl

/-- Claim C9.  The collectCoin handler sets the indexed flag exactly
when the index is within bounds and leaves every other entry, and the
whole array on an out-of-bounds index, unchanged; the client
enemyDefeated handler likewise marks the indexed enemy and adds 50 to
the score only for the defeating player when in bounds, and leaves
enemies and score unchanged on an out-of-bounds index. -/
theorem C9_stale_index_guard :
    (∀ (idx : ℤ) (cs : List Collectible), 0 ≤ idx → idx < (cs.length : ℤ) →
      (handleCollectCoin idx cs).get? idx.toNat =
        (cs.get? idx.toNat).map (fun c => { c with collected := true }) ∧
      ∀ j : ℕ, j ≠ idx.toNat → (handleCollectCoin idx cs).get? j = cs.get? j) ∧
    (∀ (idx : ℤ) (cs : List Collectible), ¬ (0 ≤ idx ∧ idx < (cs.length : ℤ)) →
      handleCollectCoin idx cs = cs) ∧
    (∀ (idx : ℤ) (mine : Bool) (es : List Enemy) (score : ℤ), 0 ≤ idx → idx < (es.length : ℤ) →
      (handleEnemyDefeated idx mine es score).1.get? idx.toNat =
        (es.get? idx.toNat).map (fun e => { e with defeated := true }) ∧
      (∀ j : ℕ, j ≠ idx.toNat → (handleEnemyDefeated idx mine es score).1.get? j = es.get? j) ∧
      (handleEnemyDefeated idx mine es score).2 = (if mine then score + 50 else score)) ∧
    (∀ (idx : ℤ) (mine : Bool) (es : List Enemy) (score : ℤ),
      ¬ (0 ≤ idx ∧ idx < (es.length : ℤ)) →
      (handleEnemyDefeated idx mine es score).1 = es ∧
      (handleEnemyDefeated idx mine es score).2 = score) := by
  refine ⟨?_, ?_, ?_, ?_⟩
  · intro idx cs h1 h2
    rw [handleCollectCoin, if_pos ⟨h1, h2⟩]
    constructor
    · rw [setCollected_get, if_pos rfl]
    · intro j hj
      rw [setCollected_get, if_neg hj]
  · intro idx cs h
    rw [handleCollectCoin, if_neg h]
  · intro idx mine es score h1 h2
    rw [handleEnemyDefeated, if_pos ⟨h1, h2⟩]
    refine ⟨?_, ?_, rfl⟩
    · rw [setDefeated_get, if_pos rfl]
    · intro j hj
      rw [setDefeated_get, if_neg hj]
  · intro idx mine es score h
    rw [handleEnemyDefeated, if_neg h]
    exact ⟨rfl, rfl⟩

/-- Claim C9: witness.  The guards applied to a one-coin array with
index 0 (in bounds) and index 5 (out of bounds), and to a one-enemy
array with index 0 and index 3. -/
theorem C9_stale_index_guard_witness :
    ((handleCollectCoin 0 [coinA]).get? (0 : ℤ).toNat =
        ([coinA].get? (0 : ℤ).toNat).map (fun c => { c with collected := true }) ∧
      ∀ j : ℕ, j ≠ (0 : ℤ).toNat → (handleCollectCoin 0 [coinA]).get? j = [coinA].get? j) ∧
    handleCollectCoin 5 [coinA] = [coinA] ∧
    (handleEnemyDefeated 0 true [slimeE] 0).1.get? (0 : ℤ).toNat =
      ([slimeE].get? (0 : ℤ).toNat).map (fun e => { e with defeated := true }) ∧
    (handleEnemyDefeated 3 true [slimeE] 0).1 = [slimeE] ∧
    (handleEnemyDefeated 3 true [slimeE] 0).2 = 0 := by
  refine ⟨?_, ?_, ?_, ?_, ?_⟩
  · exact C9_stale_index_guard.1 0 [coinA] (by decide) (by decide)
  · exact C9_stale_index_guard.2.1 5 [coinA] (by decide)
  · exact (C9_stale_index_guard.2.2.1 0 true [slimeE] 0 (by decide) (by decide)).1
  · exact (C9_stale_index_guard.2.2.2 3 true [slimeE] 0 (by decide)).1
  · exact (C9_stale_index_guard.2.2.2 3 true [slimeE] 0 (by decide)).2

/-- Field effect of replaying one pending input: pos_x moves by
speed times the signed dt of the keys, everything else is unchanged. -/
theorem replayInput_fields (c : ClientChar) (i : PendingInput) :
    (replayInput c i).pos_x =
      c.pos_x + c.spd * ((if i.keys.right then i.dt else 0) - (if i.keys.left then i.dt else 0)) ∧
    (replayInput c i).pos_y = c.pos_y ∧
    (replayInput c i).vel_x = c.vel_x ∧
    (replayInput c i).vel_y = c.vel_y ∧
    (replayInput c i).onGround = c.onGround ∧
    (replayInput c i).facingRight = c.facingRight ∧
    (replayInput c i).spd = c.spd := by
  rw [replayInput]
  split_ifs with h1 h2 h3 <;> simp <;> ring

/-- Field effect of replaying a whole pending-input list. -/
theorem replay_fold : ∀ (q : List PendingInput) (c : ClientChar),
    (q.foldl replayInput c).pos_x = c.pos_x + c.spd * netDt q ∧
    (q.foldl replayInput c).pos_y = c.pos_y ∧
    (q.foldl replayInput c).vel_x = c.vel_x ∧
    (q.foldl replayInput c).vel_y = c.vel_y ∧
    (q.foldl replayInput c).onGround = c.onGround ∧
    (q.foldl replayInput c).facingRight = c.facingRight ∧
    (q.foldl replayInput c).spd = c.spd := by
  intro q
  induction q with
  | nil =>
    intro c
    refine ⟨?_, rfl, rfl, rfl, rfl, rfl, rfl⟩
    rw [List.foldl_nil, netDt]
    ring
  | cons i rest ih =>
    intro c
    obtain ⟨hx, hy, hvx, hvy, hog, hfr, hsp⟩ := replayInput_fields c i
    obtain ⟨ix, iy, ivx, ivy, iog, ifr, isp⟩ := ih (replayInput c i)
    rw [List.foldl_cons]
    refine ⟨?_, by rw [iy, hy], by rw [ivx, hvx], by rw [ivy, hvy],
      by rw [iog, hog], by rw [ifr, hfr], by rw [isp, hsp]⟩
    rw [ix, hx, hsp, netDt]
    ring

/-- Claim C5.  Reconciliation trims the queue to exactly the inputs
with sequence above the acknowledged one, in original order (a sublist
of the original queue); the local position, velocity, ground flag and
facing are hard-overwritten by the authoritative snapshot before the
remaining inputs are replayed - so the result is independent of the
prior predicted state - and the replay applies exactly the remaining
inputs of the trimmed queue to pos_x with the collision-free model. -/
theorem C5_reconciliation_trimming :
    (∀ (s : ServerSnap) (c : ClientChar) (q : List PendingInput),
      (reconcilePlayerPosition s c q).2 =
        q.filter (fun i => decide (s.lastProcessedInput < i.sequence)) ∧
      (reconcilePlayerPosition s c q).2.Sublist q ∧
      (∀ i, i ∈ (reconcilePlayerPosition s c q).2 ↔
        (i ∈ q ∧ s.lastProcessedInput < i.sequence))) ∧
    (∀ (s : ServerSnap) (c c' : ClientChar) (q : List PendingInput),
      c.spd = c'.spd →
      (reconcilePlayerPosition s c q).1 = (reconcilePlayerPosition s c' q).1) ∧
    (∀ (s : ServerSnap) (c : ClientChar) (q : List PendingInput),
      (reconcilePlayerPosition s c q).1.pos_x =
        s.pos_x + c.spd * netDt ((reconcilePlayerPosition s c q).2) ∧
      (reconcilePlayerPosition s c q).1.pos_y = s.pos_y ∧
      (reconcilePlayerPosition s c q).1.vel_x = s.vel_x ∧
      (reconcilePlayerPosition s c q).1.vel_y = s.vel_y ∧
      (reconcilePlayerPosition s c q).1.onGround = s.onGround ∧
      (reconcilePlayerPosition s c q).1.facingRight = s.facingRight) := by
  refine ⟨?_, ?_, ?_⟩
  · intro s c q
    refine ⟨rfl, List.filter_sublist q, ?_⟩
    intro i
    show i ∈ q.filter (fun i => decide (s.lastProcessedInput < i.sequence)) ↔ _
    rw [List.mem_filter]
    simp
  · intro s c c' q h
    show (q.filter (fun i => decide (s.lastProcessedInput < i.sequence))).foldl replayInput
        ({ c with pos_x := s.pos_x, pos_y := s.pos_y, vel_x := s.vel_x, vel_y := s.vel_y, onGround := s.onGround, facingRight := s.facingRight } : ClientChar) =
      (q.filter (fun i => decide (s.lastProcessedInput < i.sequence))).foldl replayInput
        ({ c' with pos_x := s.pos_x, pos_y := s.pos_y, vel_x := s.vel_x, vel_y := s.vel_y, onGround := s.onGround, facingRight := s.facingRight } : ClientChar)
    have hc : ({ c with pos_x := s.pos_x, pos_y := s.pos_y, vel_x := s.vel_x, vel_y := s.vel_y, onGround := s.onGround, facingRight := s.facingRight } : ClientChar) =
        ({ c' with pos_x := s.pos_x, pos_y := s.pos_y, vel_x := s.vel_x, vel_y := s.vel_y, onGround := s.onGround, facingRight := s.facingRight } : ClientChar) := by
      cases c
      cases c'
      simp_all
    rw [hc]
  · intro s c q
    obtain ⟨hx, hy, hvx, hvy, hog, hfr, -⟩ :=
      replay_fold (q.filter (fun i => decide (s.lastProcessedInput < i.sequence)))
        ({ c with pos_x := s.pos_x, pos_y := s.pos_y, vel_x := s.vel_x, vel_y := s.vel_y, onGround := s.onGround, facingRight := s.facingRight } : ClientChar)
    exact ⟨hx, hy, hvx, hvy, hog, hfr⟩

/-- Claim C5: witness.  The hard-overwrite conjunct applied to two
predicted states that differ in position: after reconciliation with the
same snapshot and queue, the resulting local characters coincide. -/
theorem C5_reconciliation_trimming_witness :
    (reconcilePlayerPosition snap0 cchar0 pendQ).1 =
      (reconcilePlayerPosition snap0 cchar1 pendQ).1 :=
  C5_reconciliation_trimming.2.1 snap0 cchar0 cchar1 pendQ rfl

/-- In a queue with strictly increasing sequence numbers, the last
entry carries the maximum sequence. -/
theorem pairwise_le_getLast :
    ∀ (q : List PendingInput) (l : PendingInput),
      q.Pairwise (fun a b => a.sequence < b.sequence) → q.getLast? = some l →
      ∀ x ∈ q, x.sequence ≤ l.sequence := by
  intro q
  induction q with
  | nil =>
    intro l _ hl
    simp at hl
  | cons a rest ih =>
    intro l hp hl x hx
    rw [List.pairwise_cons] at hp
    cases hrest : rest with
    | nil =>
      rw [hrest] at hl
      simp at hl
      rcases List.mem_cons.mp hx with hxa | hxr
      · rw [hxa, hl]
      · rw [hrest] at hxr
        simp at hxr
    | cons b t =>
      have hne : rest ≠ [] := by rw [hrest]; simp
      have hl' : rest.getLast? = some l := by
        rw [hrest] at hl ⊢
        rw [List.getLast?_cons_cons] at hl
        exact hl
      have hlmem : l ∈ rest := by
        have := List.getLast?_eq_getLast rest hne
        rw [this] at hl'
        cases hl'
        exact List.getLast_mem hne
      rcases List.mem_cons.mp hx with hxa | hxr
      · rw [hxa]
        exact le_of_lt (hp.1 l hlmem)
      · exact ih l hp.2 hl' x hxr

/-- Filtering a strictly increasing queue by a predicate its last entry
satisfies keeps the last entry last. -/
theorem filter_getLast_of_last_mem (p : PendingInput → Bool) :
    ∀ (q : List PendingInput) (l : PendingInput),
      q.getLast? = some l → p l = true → (q.filter p).getLast? = some l := by
  intro q
  induction q with
  | nil =>
    intro l hl
    simp at hl
  | cons a rest ih =>
    intro l hl hp
    cases hrest : rest with
    | nil =>
      subst hrest
      simp at hl
      subst hl
      simp [List.filter_cons, hp]
    | cons b t =>
      subst hrest
      rw [List.getLast?_cons_cons] at hl
      have hfr := ih l hl hp
      rw [List.filter_cons]
      split
      · cases hfrest : (b :: t).filter p with
        | nil =>
          rw [hfrest] at hfr
          simp at hfr
        | cons c u =>
          rw [hfrest] at hfr
          rw [List.getLast?_cons_cons]
          exact hfr
      · exact hfr

/-- Claim C6, counterexample.  Sequence numbers are derived from the
pending queue, not from a persistent counter: the first send on an
empty queue emits sequence 1; after the server acknowledges sequence 1
the reconciliation empties the queue, and the next send emits sequence
1 again - the per-connection sequence stream 1, 1 is not strictly
increasing. -/
theorem C6_sequence_monotonicity_counterexample :
    (sendInputToServer keysRight []).1 = 1 ∧
    (reconcilePlayerPosition snapAck1 cchar0 (sendInputToServer keysRight []).2).2 = [] ∧
    (sendInputToServer keysRight
      (reconcilePlayerPosition snapAck1 cchar0 (sendInputToServer keysRight []).2).2).1 = 1 := by
  refine ⟨?_, ?_, ?_⟩
  · with_unfolding_all decide
  · with_unfolding_all decide
  · with_unfolding_all decide

/-- Claim C6, amended.  Within a stretch of the connection in which the
pending queue never becomes empty, successive sendInputToServer calls
emit strictly increasing (indeed consecutive) sequence numbers: a send
on a queue with last sequence s emits s + 1 and leaves the new input
last; the queue stays strictly increasing under sends and under
reconciliation trimming, and trimming keeps the last entry (hence the
numbering) whenever it leaves the queue nonempty.  But a send on an
empty queue emits 1, so the stream restarts whenever a reconciliation
discards the whole queue. -/
theorem C6_sequence_monotonicity_amended :
    (∀ (k : Keys) (q : List PendingInput) (l : PendingInput),
      q.getLast? = some l → (sendInputToServer k q).1 = l.sequence + 1) ∧
    (∀ k : Keys, (sendInputToServer k []).1 = 1) ∧
    (∀ (k : Keys) (q : List PendingInput),
      q.Pairwise (fun a b => a.sequence < b.sequence) →
      (sendInputToServer k q).2.Pairwise (fun a b => a.sequence < b.sequence) ∧
      (sendInputToServer k q).2.getLast? =
        some { sequence := (sendInputToServer k q).1, keys := k, dt := 1/60 }) ∧
    (∀ (s : ServerSnap) (c : ClientChar) (q : List PendingInput),
      q.Pairwise (fun a b => a.sequence < b.sequence) →
      (reconcilePlayerPosition s c q).2.Pairwise (fun a b => a.sequence < b.sequence) ∧
      ((reconcilePlayerPosition s c q).2 ≠ [] →
        (reconcilePlayerPosition s c q).2.getLast? = q.getLast?)) := by
  refine ⟨?_, ?_, ?_, ?_⟩
  · intro k q l hl
    show (match q.getLast? with
          | some l => l.sequence + 1
          | none => 1) = l.sequence + 1
    rw [hl]
  · intro k
    rfl
  · intro k q hp
    set seq : ℕ :=
      (match q.getLast? with
       | some l => l.sequence + 1
       | none => 1) with hseq
    have hq1 : (q ++ [({ sequence := seq, keys := k, dt := 1/60 } : PendingInput)]).Pairwise
        (fun a b => a.sequence < b.sequence) := by
      rw [List.pairwise_append]
      refine ⟨hp, by simp, ?_⟩
      intro x hx y hy
      simp only [List.mem_singleton] at hy
      rw [hy]
      cases hlast : q.getLast? with
      | none =>
        rw [List.getLast?_eq_none_iff] at hlast
        rw [hlast] at hx
        simp at hx
      | some l =>
        have := pairwise_le_getLast q l hp hlast x hx
        rw [hseq, hlast]
        simp
        omega
    have hlast1 : (q ++ [({ sequence := seq, keys := k, dt := 1/60 } : PendingInput)]).getLast? =
        some ({ sequence := seq, keys := k, dt := 1/60 } : PendingInput) := by
      rw [List.getLast?_concat]
    constructor
    · show (if 20 < (q ++ [({ sequence := seq, keys := k, dt := 1/60 } : PendingInput)]).length
            then (q ++ [({ sequence := seq, keys := k, dt := 1/60 } : PendingInput)]).tail
            else q ++ [({ sequence := seq, keys := k, dt := 1/60 } : PendingInput)]).Pairwise
          (fun a b => a.sequence < b.sequence)
      split
      · exact hq1.sublist (List.tail_sublist _)
      · exact hq1
    · show (if 20 < (q ++ [({ sequence := seq, keys := k, dt := 1/60 } : PendingInput)]).length
            then (q ++ [({ sequence := seq, keys := k, dt := 1/60 } : PendingInput)]).tail
            else q ++ [({ sequence := seq, keys := k, dt := 1/60 } : PendingInput)]).getLast? =
          some ({ sequence := seq, keys := k, dt := 1/60 } : PendingInput)
      split
      · rename_i hlen
        cases hq : q ++ [({ sequence := seq, keys := k, dt := 1/60 } : PendingInput)] with
        | nil =>
          rw [hq] at hlen
          simp at hlen
        | cons a t =>
          cases ht : t with
          | nil =>
            rw [hq, ht] at hlen
            simp at hlen
          | cons b u =>
            rw [hq, ht] at hlast1
            rw [List.getLast?_cons_cons] at hlast1
            simp only [List.tail_cons]
            exact hlast1
      · exact hlast1
  · intro s c q hp
    constructor
    · exact hp.sublist (List.filter_sublist q)
    · intro hne
      have hex : ∃ x ∈ q, decide (s.lastProcessedInput < x.sequence) = true := by
        rcases List.exists_mem_of_ne_nil _ hne with ⟨x, hx⟩
        have := List.mem_filter.mp hx
        exact ⟨x, this.1, this.2⟩
      obtain ⟨x, hxq, hxp⟩ := hex
      cases hlast : q.getLast? with
      | none =>
        rw [List.getLast?_eq_none_iff] at hlast
        rw [hlast] at hxq
        simp at hxq
      | some l =>
        have hle := pairwise_le_getLast q l hp hlast x hxq
        have hpl : decide (s.lastProcessedInput < l.sequence) = true := by
          simp only [decide_eq_true_eq] at hxp ⊢
          omega
        exact filter_getLast_of_last_mem _ q l hlast hpl

/-- Claim C6, amended: witness.  A send on the two-input queue with
last sequence 2 emits sequence 3. -/
theorem C6_sequence_monotonicity_amended_witness :
    (sendInputToServer keysRight pendQ2).1 =
      ({ sequence := 2, keys := keysRight, dt := 1/60 } : PendingInput).sequence + 1 :=
  C6_sequence_monotonicity_amended.1 keysRight pendQ2
    { sequence := 2, keys := keysRight, dt := 1/60 } (by with_unfolding_all decide)

/-- Claim C2, counterexample.  The claim asserts that one authoritative
tick with dt = 0.1 s moves the player at (50, 100) holding right to
approximately (65, 104).  In the code the tick dt is
TICK_RATE / 1000 = 0.01 s (TICK_RATE = 10 is the setInterval period in
milliseconds), so the tick moves the player to (51.5, 100.08): the
resulting x is 13.5 units away from the claimed 65 and the resulting y
is 3.92 units away from the claimed 104, so the claimed position is not
even approximately reached. -/
theorem C2_tick_scenario_counterexample :
    (tickPlayer serverMap playerC2).pos_x = 103/2 ∧
    (tickPlayer serverMap playerC2).pos_y = 2502/25 ∧
    (65 : ℚ) - 103/2 = 27/2 ∧
    (104 : ℚ) - 2502/25 = 98/25 := by
  obtain ⟨hx, hy, -, -, -⟩ := tickC2_eval
  refine ⟨hx, hy, by norm_num, by norm_num⟩

/-- Claim C2, amended.  For a player spawned at (50, 100) with zero
velocity whose stored input is keys right with sequence 1, one
authoritative server tick (gravity 800, horizontal speed 150, and the
dt the game loop actually uses, TICK_RATE / 1000 = 0.01 s) moves the
player to exactly (51.5, 100.08) with velocity (150, 8) and no
obstruction, and the next snapshot reports lastProcessedInput = 1. -/
theorem C2_tick_scenario_amended :
    (tickPlayer serverMap (handleInputMessage spawnPlayer keysRight 1)).pos_x = 103/2 ∧
    (tickPlayer serverMap (handleInputMessage spawnPlayer keysRight 1)).pos_y = 2502/25 ∧
    (tickPlayer serverMap (handleInputMessage spawnPlayer keysRight 1)).vel_x = 150 ∧
    (tickPlayer serverMap (handleInputMessage spawnPlayer keysRight 1)).vel_y = 8 ∧
    (tickPlayer serverMap (handleInputMessage spawnPlayer keysRight 1)).lastProcessedInput = 1 :=
  tickC2_eval

/-- Claim C10.  The pending-input queue is bounded by 20 entries:
sendInputToServer pushes the new input and evicts the oldest entry when
the length exceeds 20, so it preserves the bound; reconciliation only
filters the queue, so it never grows it and preserves the bound as
well. -/
theorem C10_queue_bound :
    (∀ (k : Keys) (q : List PendingInput), q.length ≤ 20 →
      (sendInputToServer k q).2.length ≤ 20) ∧
    (∀ (s : ServerSnap) (c : ClientChar) (q : List PendingInput),
      (reconcilePlayerPosition s c q).2.length ≤ q.length) ∧
    (∀ (s : ServerSnap) (c : ClientChar) (q : List PendingInput), q.length ≤ 20 →
      (reconcilePlayerPosition s c q).2.length ≤ 20) := by
  refine ⟨?_, ?_, ?_⟩
  · intro k q hq
    simp only [sendInputToServer]
    split
    · rename_i h
      rw [List.length_tail]
      simp only [List.length_append, List.length_singleton]
      omega
    · rename_i h
      simp only [List.length_append, List.length_singleton] at h ⊢
      omega
  · intro s c q
    simp only [reconcilePlayerPosition]
    exact List.length_filter_le _ q
  · intro s c q hq
    simp only [reconcilePlayerPosition]
    exact le_trans (List.length_filter_le _ q) hq

/-- Witness for claim C10: concrete two-entry queue, bound discharged by
evaluation. -/
theorem C10_queue_bound_witness :
    (sendInputToServer keysRight pendQ2).2.length ≤ 20 ∧
    (reconcilePlayerPosition snapAck1 cchar0 pendQ2).2.length ≤ pendQ2.length ∧
    (reconcilePlayerPosition snapAck1 cchar0 pendQ2).2.length ≤ 20 :=
  ⟨C10_queue_bound.1 keysRight pendQ2 (by with_unfolding_all decide),
   C10_queue_bound.2.1 snapAck1 cchar0 pendQ2,
   C10_queue_bound.2.2 snapAck1 cchar0 pendQ2 (by with_unfolding_all decide)⟩

end Pixelknight
